import Mathlib

/-!
Verification development for the `context-gather` chunking core.

The Rust sources under `src/` are shallowly embedded as executable Lean
definitions.  The process-wide tokenizer (`tokenizer::count`) is passed
around as an explicit function `tk : String → Nat`, file-system paths are
modelled as slash-separated strings, machine integers (`usize`) become
`Nat` (note `Nat` subtraction is saturating, exactly matching the
`saturating_sub` calls of the source), and the `warn!` log side effects
are reified as an explicit warning list threaded through the results.
Rendered blocks additionally carry ghost fields (`src`, `part`, `body`)
recording which file a block came from, its `part="i/N"` attribute, and
the text standing strictly between the two wrapper tag lines; the `xml`
and `tokens` fields are computed exactly as in the source.
-/

set_option maxRecDepth 10000

/-- The apostrophe character (written via its code point). -/
def aposChar : Char := Char.ofNat 39

/-- The double-quote character (written via its code point). -/
def quoteChar : Char := Char.ofNat 34

/-- Right-nested concatenation of a list of strings; embeds the
`collect::<String>()` / repeated `push_str` idiom of the source. -/
def joinS : List String → String
  | [] => ""
  | s :: rest => s ++ joinS rest

/-! ### `src/context/xml.rs` -/

/-- Embeds `escape_xml_inner`: per-character replacement of the XML
delimiter characters, quotes only when `escapeQuotes` is set. -/
def escapeChar (escapeQuotes : Bool) (c : Char) : String :=
  if c = '&' then "&amp;"
  else if c = '<' then "&lt;"
  else if c = '>' then "&gt;"
  else if c = quoteChar ∧ escapeQuotes then "&quot;"
  else if c = aposChar ∧ escapeQuotes then "&apos;"
  else String.singleton c

/-- Embeds `escape_xml_inner` (the character loop building `out`). -/
def escape_xml_inner (s : String) (escapeQuotes : Bool) : String :=
  joinS (s.data.map (escapeChar escapeQuotes))

/-- Embeds `needs_escape_attr`.  The source scans UTF-8 bytes for the five
ASCII delimiter bytes; since UTF-8 continuation bytes are ≥ 0x80, a byte
match occurs exactly when a character match occurs, so we scan chars. -/
def needs_escape_attr (s : String) : Bool :=
  s.data.any (fun c => c = '&' ∨ c = '<' ∨ c = '>' ∨ c = quoteChar ∨ c = aposChar)

/-- Embeds `maybe_escape_text`. -/
def maybe_escape_text (s : String) (escapeXml : Bool) : String :=
  if escapeXml then escape_xml_inner s false else s

/-- Embeds `maybe_escape_attr`. -/
def maybe_escape_attr (s : String) (escapeXml : Bool) : String :=
  if escapeXml ∨ needs_escape_attr s then escape_xml_inner s true else s

/-! ### Path helpers

`PathBuf` values are modelled as slash-separated strings
(`to_slash_lossy` is the identity on this model).  `Path::file_name` and
`Path::parent` are modelled by splitting on the final slash, which agrees
with the source on the ordinary relative paths the chunker receives. -/

/-- Splitting a character list at every occurrence of a separator
character (the semantics of `str::split` with a one-character pattern,
and of `String.splitOn` with a one-character separator), written as
structural recursion so it evaluates by kernel reduction. -/
def splitCharList (sep : Char) : List Char → List (List Char)
  | [] => [[]]
  | c :: rest =>
    if c = sep then [] :: splitCharList sep rest
    else
      match splitCharList sep rest with
      | [] => [[c]]
      | l :: ls => (c :: l) :: ls

/-- The components of a slash-separated path string. -/
def pathComponents (p : String) : List String :=
  (splitCharList '/' p.data).map String.mk

/-- Joining string pieces with a separator (the semantics of
`String.intercalate`, written structurally). -/
def joinSep (sep : String) : List String → String
  | [] => ""
  | [s] => s
  | s :: rest => s ++ sep ++ joinSep sep rest

/-- Model of `path.file_name().map(to_string).unwrap_or_default()`. -/
def pathFileName (p : String) : String :=
  (pathComponents p).getLastD ""

/-- Model of `path.parent().unwrap_or(Path::new("")).to_slash_lossy()`. -/
def pathParent (p : String) : String :=
  joinSep "/" (pathComponents p).dropLast

/-! ### `src/context/types.rs` -/

/-- Embeds `FileContents` (folder, path, contents). -/
structure FileContents where
  folder : String
  path : String
  contents : String
deriving DecidableEq

/-! ### `src/context/chunker.rs`: data model -/

/-- Embeds `FileMeta`. -/
structure FileMeta where
  id : Nat
  path : String
  tokens : Nat
  parts : Nat
deriving DecidableEq

/-- Embeds `FileBlock`; `xml` and `tokens` are exactly the source fields,
while `src`, `part` and `body` are ghost fields recording the source file
index, the `part="i/N"` attribute (if any) and the text standing strictly
between the opening tag line and the closing tag line. -/
structure FileBlock where
  xml : String
  tokens : Nat
  src : Nat
  part : Option (Nat × Nat)
  body : String
deriving DecidableEq

instance : Inhabited FileBlock := ⟨⟨"", 0, 0, none, ""⟩⟩

/-- Embeds `ChunkBody`. -/
structure ChunkBody where
  blocks : List FileBlock
  tokens : Nat
deriving DecidableEq

instance : Inhabited ChunkBody := ⟨⟨[], 0⟩⟩

/-- The warnings emitted through `warn!` by the chunker, reified. -/
inductive CWarn where
  | oversizeLine (path : String) (maxTokens : Nat)
  | oversizePart (path : String) (partIdx maxTokens : Nat)
deriving DecidableEq

/-! ### `src/context/chunker.rs`: block rendering -/

/-- Embeds `wrap_file`. -/
def wrap_file (path : String) (body : String) (escapeXml : Bool) : String :=
  let filename := pathFileName path
  let folder := pathParent path
  let folderDisplay := if folder = "" then "." else folder
  let pathAttr := maybe_escape_attr path escapeXml
  let filenameAttr := maybe_escape_attr filename escapeXml
  let folderAttr := maybe_escape_attr folderDisplay escapeXml
  "    <file-contents path=\"" ++ pathAttr ++ "\" name=\"" ++ filenameAttr ++
    "\" folder=\"" ++ folderAttr ++ "\">\n" ++ body ++ "\n    </file-contents>\n"

/-- Embeds `wrap_part`. -/
def wrap_part (path : String) (idx total : Nat) (body : String) (escapeXml : Bool) : String :=
  let filename := pathFileName path
  let folder := pathParent path
  let folderDisplay := if folder = "" then "." else folder
  let pathAttr := maybe_escape_attr path escapeXml
  let filenameAttr := maybe_escape_attr filename escapeXml
  let folderAttr := maybe_escape_attr folderDisplay escapeXml
  "    <file-contents path=\"" ++ pathAttr ++ "\" name=\"" ++ filenameAttr ++
    "\" folder=\"" ++ folderAttr ++ "\" part=\"" ++ toString idx ++ "/" ++ toString total ++
    "\">\n" ++ body ++ "    </file-contents>\n"

/-! ### `src/context/chunker.rs`: line splitting -/

/-- State of the accumulation loop inside `split_with_total`. -/
structure SWTState where
  parts : List String
  current : String
  partIdx : Nat
  warns : List CWarn
deriving DecidableEq

/-- One iteration of the `for line in lines` loop of `split_with_total`. -/
def swt_step (tk : String → Nat) (path : String) (maxTokens : Nat) (escapeXml : Bool)
    (totalParts : Nat) (st : SWTState) (line : String) : SWTState :=
  if st.current = "" then
    let cur := st.current ++ line
    let wrapped := wrap_part path st.partIdx totalParts cur escapeXml
    if tk wrapped > maxTokens then
      { parts := st.parts ++ [cur], current := "", partIdx := st.partIdx + 1,
        warns := st.warns ++ [CWarn.oversizeLine path maxTokens] }
    else
      { st with current := cur }
  else
    let cur := st.current ++ line
    let wrapped := wrap_part path st.partIdx totalParts cur escapeXml
    if tk wrapped > maxTokens then
      let parts1 := st.parts ++ [st.current]
      let idx1 := st.partIdx + 1
      let wrapped2 := wrap_part path idx1 totalParts line escapeXml
      if tk wrapped2 > maxTokens then
        { parts := parts1 ++ [line], current := "", partIdx := idx1 + 1,
          warns := st.warns ++ [CWarn.oversizeLine path maxTokens] }
      else
        { parts := parts1, current := line, partIdx := idx1, warns := st.warns }
    else
      { st with current := cur }

/-- Embeds `split_with_total`; returns the parts and the emitted warnings. -/
def split_with_total (tk : String → Nat) (lines : List String) (path : String)
    (maxTokens : Nat) (escapeXml : Bool) (totalParts : Nat) : List String × List CWarn :=
  let st := lines.foldl (swt_step tk path maxTokens escapeXml totalParts)
    ⟨[], "", 1, []⟩
  (if st.current = "" then st.parts else st.parts ++ [st.current], st.warns)

/-- Splits a character list into lines, each line keeping (or gaining, for
the final one) a trailing newline.  This is exactly
`contents.split('\n').map(|line| format!("\x7bline\x7d\n"))` of the source. -/
def linesNl : List Char → List (List Char)
  | [] => [['\n']]
  | c :: rest =>
    if c = '\n' then ['\n'] :: linesNl rest
    else
      match linesNl rest with
      | [] => [[c, '\n']]
      | l :: ls => (c :: l) :: ls

/-- The `lines` vector built at the top of `split_file_into_parts`. -/
def splitLines (s : String) : List String :=
  (linesNl s.data).map String.mk

/-- Result of `split_file_into_parts`.  The source returns only the parts;
`warns` reifies the `warn!` calls and `converged` records whether the
bounded fixed-point iteration returned early (ghost instrumentation). -/
structure SplitRes where
  parts : List String
  warns : List CWarn
  converged : Bool
deriving DecidableEq

/-- The `for _ in 0..16` fixed-point loop of `split_file_into_parts`. -/
def split_loop (tk : String → Nat) (path : String) (maxTokens : Nat) (escapeXml : Bool)
    (lines : List String) : Nat → Nat → List String → List CWarn → SplitRes
  | 0, _, lastParts, ws => ⟨lastParts, ws, false⟩
  | fuel + 1, target, _, ws =>
    let pw := split_with_total tk lines path maxTokens escapeXml target
    let actual := max pw.1.length 1
    if actual = target then ⟨pw.1, ws ++ pw.2, true⟩
    else split_loop tk path maxTokens escapeXml lines fuel actual pw.1 (ws ++ pw.2)

/-- Embeds `split_file_into_parts`. -/
def split_file_into_parts (tk : String → Nat) (contents : String) (path : String)
    (maxTokens : Nat) (escapeXml : Bool) : SplitRes :=
  split_loop tk path maxTokens escapeXml (splitLines contents) 16 1 [] []

/-! ### `src/context/chunker.rs`: `build_chunk_bodies` -/

/-- The whole-file block built by the first branch of the per-file loop of
`build_chunk_bodies`.  The ghost `body` field records the text standing
strictly between the two tag lines of `wrap_file`, namely the (escaped)
contents followed by the newline the wrapper inserts before its closing
tag line. -/
def whole_file_block (tk : String → Nat) (escapeXml : Bool) (fileId : Nat)
    (f : FileContents) : FileBlock :=
  let contents := maybe_escape_text f.contents escapeXml
  let fb := wrap_file f.path contents escapeXml
  ⟨fb, tk fb, fileId, none, contents ++ "\n"⟩

/-- One rendered part block of a split file (the `for (idx, body)` loop of
`build_chunk_bodies`); `idx` is 0-based here, the attribute uses `idx+1`
exactly as the source does. -/
def part_file_block (tk : String → Nat) (escapeXml : Bool) (fileId partsCount idx : Nat)
    (body : String) (path : String) : FileBlock :=
  let wrapped := wrap_part path (idx + 1) partsCount body escapeXml
  ⟨wrapped, tk wrapped, fileId, some (idx + 1, partsCount), body⟩

/-- The per-file body of the first loop of `build_chunk_bodies`: either a
single whole-file block, or the rendered parts of a split file; also the
file's `FileMeta` and the warnings emitted for oversize parts. -/
def file_blocks (tk : String → Nat) (maxTokens : Nat) (escapeXml : Bool) (fileId : Nat)
    (f : FileContents) : List FileBlock × FileMeta × List CWarn :=
  let contents := maybe_escape_text f.contents escapeXml
  let contentTokens := tk contents
  let fileBlock := wrap_file f.path contents escapeXml
  let blockTokens := tk fileBlock
  if maxTokens = 0 ∨ blockTokens ≤ maxTokens then
    ([whole_file_block tk escapeXml fileId f],
     ⟨fileId, f.path, contentTokens, 1⟩, [])
  else
    let res := split_file_into_parts tk contents f.path maxTokens escapeXml
    let partsCount := max res.parts.length 1
    let blocks := res.parts.enum.map
      (fun p => part_file_block tk escapeXml fileId partsCount p.1 p.2 f.path)
    let partWarns := blocks.filterMap (fun b =>
      if b.tokens > maxTokens then
        some (CWarn.oversizePart f.path ((b.part.getD (0, 0)).1) maxTokens)
      else none)
    (blocks, ⟨fileId, f.path, contentTokens, partsCount⟩, res.warns ++ partWarns)

/-- One step of the greedy packing loop at the bottom of
`build_chunk_bodies`; the accumulator is `(chunks, current)`. -/
def pack_step (maxTokens : Nat) (acc : List ChunkBody × ChunkBody) (b : FileBlock) :
    List ChunkBody × ChunkBody :=
  let chunks := acc.1
  let current := acc.2
  if maxTokens > 0 ∧ current.blocks ≠ [] ∧ current.tokens + b.tokens > maxTokens then
    (chunks ++ [current], ⟨[b], b.tokens⟩)
  else
    (chunks, ⟨current.blocks ++ [b], current.tokens + b.tokens⟩)

/-- The greedy packing loop of `build_chunk_bodies`. -/
def pack_blocks (maxTokens : Nat) (blocks : List FileBlock) : List ChunkBody :=
  let acc := blocks.foldl (pack_step maxTokens) ([], ⟨[], 0⟩)
  if acc.2.blocks ≠ [] then acc.1 ++ [acc.2] else acc.1

/-- Embeds `build_chunk_bodies`; returns the chunk bodies, the file metas,
and the reified warnings. -/
def build_chunk_bodies (tk : String → Nat) (files : List FileContents)
    (maxTokens : Nat) (escapeXml : Bool) :
    List ChunkBody × List FileMeta × List CWarn :=
  let per := files.enum.map (fun p => file_blocks tk maxTokens escapeXml p.1 p.2)
  let blocks := (per.map (fun r => r.1)).flatten
  let metas := per.map (fun r => r.2.1)
  let warns := (per.map (fun r => r.2.2)).flatten
  (pack_blocks maxTokens blocks, metas, warns)

/-- Embeds `build_file_meta` (used by the multi-step pipeline branch). -/
def build_file_meta (tk : String → Nat) (files : List FileContents)
    (escapeXml : Bool) : List FileMeta :=
  files.enum.map (fun p =>
    let contents := maybe_escape_text p.2.contents escapeXml
    ⟨p.1, p.2.path, tk contents, 1⟩)

/-! ### `src/tokenizer.rs`

`CoreBPE` values are abstracted to the model key they were built from:
the tiktoken constructors (`get_bpe_from_model`, `o200k_base`) live in an
external crate, and the claims about the tokenizer concern only its
once-per-process selection, which this state machine captures.  The
`OnceLock` cell becomes an explicit `Option` state threaded through
`tokenizer_init`; the environment variable consulted by `init` is the
explicit argument `envModel`. -/

/-- Embeds `DEFAULT_MODEL`. -/
def DEFAULT_MODEL : String := "gpt-5.2"

/-- Embeds `normalize_model_name`: lowercase, then map the six Unicode
hyphen variants to ASCII `-` (written per character over the char list so
it evaluates by kernel reduction). -/
def normalize_model_name (model : String) : String :=
  String.mk (model.data.map (fun c0 =>
    let c := c0.toLower
    if c = Char.ofNat 0x2010 ∨ c = Char.ofNat 0x2011 ∨ c = Char.ofNat 0x2012 ∨
       c = Char.ofNat 0x2013 ∨ c = Char.ofNat 0x2014 ∨ c = Char.ofNat 0x2212
    then '-' else c))

/-- Embeds `bpe_for_model`, abstracting the constructed `CoreBPE` to the
normalized model key it is selected from. -/
def bpe_for_model (model : String) : String :=
  normalize_model_name model

/-- The process-wide `static TOK: OnceLock<CoreBPE>` as explicit state. -/
structure TokenizerState where
  tok : Option String
deriving DecidableEq

/-- Embeds `tokenizer::init` as a state transition.  In the sequential
execution model the `TOK.set` of the source always succeeds when the cell
is empty, so the race-only `map_err` branch is unreachable. -/
def tokenizer_init (model : Option String) (envModel : Option String)
    (st : TokenizerState) : Except String Unit × TokenizerState :=
  if st.tok.isSome then (Except.ok (), st)
  else
    let m := ((model.map normalize_model_name).orElse (fun _ => envModel)).getD DEFAULT_MODEL
    (Except.ok (), ⟨some (bpe_for_model m)⟩)

/-! ### `src/header.rs`

`make_header` is impure in the source: it reads the clock for the
`generated-at` timestamp and shells out to `git` when `include_git` is
set.  Both effects become explicit parameters: `ts` is the rendered
RFC3339 timestamp and `gitInfo` / `diffXml` are the two sections the git
collaborator produced (the source leaves both empty when `include_git` is
false, which the `if includeGit` guards reproduce). -/

/-- Embeds `make_header`. -/
def make_header (totalChunks limit : Nat) (files : List FileMeta)
    (multiStep escapeXml includeGit : Bool) (ts gitInfo diffXml : String) : String :=
  let map := joinS (files.map (fun f =>
    "    <file id=\"" ++ toString f.id ++ "\" path=\"" ++ maybe_escape_attr f.path escapeXml ++
      "\" tokens=\"" ++ toString f.tokens ++ "\" parts=\"" ++ toString f.parts ++ "\"/>\n"))
  let instructions :=
    if multiStep then
      "  <instructions>\n    This header lists " ++ toString files.length ++
        " files available for context retrieval. To fetch file contents, enter one or more file ids (e.g., \'2\'), file paths (e.g., \'src/main.rs\'), or glob patterns (e.g., \'*.rs\'), and the tool will return their contents in the next message.\n  </instructions>\n"
    else
      "  <instructions>\n    The shared context is split into " ++ toString totalChunks ++
        " chunks (including this header). Review each chunk carefully. Acknowledge that you\'ve studied this each chunk. After reading the final chunk, reply \"READY\" to confirm you have understood the context.\n  </instructions>\n"
  let gitInfoStr := if includeGit then gitInfo else ""
  let diffXmlStr := if includeGit then diffXml else ""
  "<shared-context-header version=\"1\" total-chunks=\"" ++ toString totalChunks ++
    "\" chunk-size=\"" ++ toString limit ++ "\" generated-at=\"" ++ ts ++
    "\">\n  <file-map total-files=\"" ++ toString files.length ++ "\">\n" ++ map ++
    "  </file-map>\n" ++ instructions ++ gitInfoStr ++ diffXmlStr ++
    "</shared-context-header>\n"

/-! ### `src/output.rs` / `src/pipeline.rs` -/

/-- Embeds `RenderedChunk`. -/
structure RenderedChunk where
  xml : String
  tokens : Nat
deriving DecidableEq

/-- Modelled from the spec: `output::render_chunk_snippet` is called by
`Pipeline::build_chunks_with_header` but its definition is missing from
the provided sources (only the older `format_chunk_snippet` sibling is
present).  Spec section 6 fixes the on-wire contract: chunk 0 is the
header text followed by `<more remaining="R"/>` when other chunks follow
and by the closing `</shared-context>` when it is the only chunk; chunk
`i > 0` wraps the i-th body in `<context-chunk id="i/total">` and ends
with `<more remaining="R"/>` or, for the last chunk, `</shared-context>`. -/
def render_chunk_snippet (headerXml : String) (bodyXmls : List String) (idx : Nat) : String :=
  let total := bodyXmls.length + 1
  let rem := total - (idx + 1)
  if idx = 0 then
    if rem > 0 then
      headerXml ++ "<more remaining=\"" ++ toString rem ++ "\"/>\n"
    else
      headerXml ++ "</shared-context>\n"
  else
    let body := bodyXmls.getD (idx - 1) ""
    if rem > 0 then
      "<context-chunk id=\"" ++ toString idx ++ "/" ++ toString total ++ "\">\n" ++ body ++
        "</context-chunk>\n<more remaining=\"" ++ toString rem ++ "\"/>\n"
    else
      "<context-chunk id=\"" ++ toString idx ++ "/" ++ toString total ++ "\">\n" ++ body ++
        "</context-chunk>\n</shared-context>\n"

/-- State accumulated by the `for idx in 0..total_chunks` snippet loop of
`Pipeline::build_chunks_with_header`. -/
structure ScanSt where
  snips : List String
  toks : List Nat
  headerOversize : Bool
  oversizeSingle : List Nat
  requiredLimit : Option Nat
  maxOver : Nat
  hasUnavoidable : Bool
deriving DecidableEq

/-- Outcome of the snippet loop: it either runs to completion or breaks
early with the index of an oversize multi-block body to split. -/
inductive ScanRes where
  | complete (st : ScanSt)
  | splitAt (bodyIdx : Nat)
deriving DecidableEq

/-- The snippet loop of `Pipeline::build_chunks_with_header`, one
recursive call per `idx`; `fuel` starts at `total_chunks`. -/
def scan_chunks (tk : String → Nat) (chunkLimit : Nat) (headerXml : String)
    (bodyXmls : List String) (bodies : List ChunkBody) (wrapperFloor : Nat) :
    Nat → Nat → ScanSt → ScanRes
  | 0, _, st => ScanRes.complete st
  | fuel + 1, idx, st =>
    let snippet := render_chunk_snippet headerXml bodyXmls idx
    let tokens := tk snippet
    let st1 : ScanSt := { st with snips := st.snips ++ [snippet], toks := st.toks ++ [tokens] }
    if chunkLimit > 0 ∧ tokens > chunkLimit then
      if idx = 0 then
        scan_chunks tk chunkLimit headerXml bodyXmls bodies wrapperFloor fuel (idx + 1)
          { st1 with headerOversize := true }
      else
        let bodyIdx := idx - 1
        let b := bodies.getD bodyIdx default
        if b.blocks.length > 1 then ScanRes.splitAt bodyIdx
        else
          let st2 : ScanSt := { st1 with oversizeSingle := st1.oversizeSingle ++ [idx] }
          let blockTokens := (b.blocks.getD 0 default).tokens
          if blockTokens > chunkLimit then
            scan_chunks tk chunkLimit headerXml bodyXmls bodies wrapperFloor fuel (idx + 1)
              { st2 with hasUnavoidable := true }
          else
            let overhead := tokens - blockTokens
            let lim := max (chunkLimit - overhead) wrapperFloor
            let newReq := match st2.requiredLimit with
              | some prev => min prev lim
              | none => lim
            let st3 : ScanSt :=
              { st2 with
                requiredLimit := some newReq
                maxOver := max st2.maxOver (tokens - chunkLimit) }
            scan_chunks tk chunkLimit headerXml bodyXmls bodies wrapperFloor fuel (idx + 1) st3
    else
      scan_chunks tk chunkLimit headerXml bodyXmls bodies wrapperFloor fuel (idx + 1) st1

/-- Outcome of one pass of the inner `loop` of
`Pipeline::build_chunks_with_header`: the rendered chunks, a request to
repack at a smaller effective limit, or the non-convergence error. -/
inductive InnerRes where
  | finished (chunks : List RenderedChunk)
  | shrink (newEff : Nat)
  | failed (msg : String)
deriving DecidableEq

/-- The decision taken at the bottom of one inner-loop pass once the
snippet loop ran to completion: shrink the effective limit (the two
`break` branches of the source) or accept the rendered snippets (the
`return Ok` branch). -/
def pass_decision (eff wrapperFloor : Nat) (st : ScanSt) : InnerRes :=
  let branch1 : Option Nat := match st.requiredLimit with
    | some l => if l > 0 ∧ l < eff then some l else none
    | none => none
  if branch1.isSome then
    let l := branch1.getD 0
    let adjusted := max (l - 2) 1
    if adjusted < eff then InnerRes.shrink adjusted else InnerRes.shrink l
  else if st.maxOver > 0 ∧ ¬ st.hasUnavoidable ∧ eff > wrapperFloor + 1 then
    InnerRes.shrink (max (eff - 1) wrapperFloor)
  else
    InnerRes.finished ((st.snips.zip st.toks).map (fun p => ⟨p.1, p.2⟩))

/-- The detach step of the inner loop: pop the last block of body
`bodyIdx` into a fresh single-block body inserted right after it. -/
def detach_step (bodies : List ChunkBody) (bodyIdx : Nat) : List ChunkBody :=
  let b := bodies.getD bodyIdx default
  let lastBlock := b.blocks.getLastD default
  let shrunk : ChunkBody := ⟨b.blocks.dropLast, b.tokens - lastBlock.tokens⟩
  (bodies.set bodyIdx shrunk).insertIdx (bodyIdx + 1) ⟨[lastBlock], lastBlock.tokens⟩

/-- The branch taken on the outcome of the snippet loop: an oversize
multi-block body is detached and the loop continues (erroring when the
`splits > max_blocks` ceiling is exceeded), a completed scan goes to
`pass_decision`. -/
def inner_dispatch (recurse : List ChunkBody → Nat → InnerRes)
    (maxBlocks splits eff wrapperFloor : Nat) (bodies : List ChunkBody)
    (r : ScanRes) : InnerRes :=
  match r with
  | ScanRes.splitAt bodyIdx =>
    if splits + 1 > maxBlocks then InnerRes.failed "chunk splitting did not converge"
    else recurse (detach_step bodies bodyIdx) (splits + 1)
  | ScanRes.complete st => pass_decision eff wrapperFloor st

/-- The inner `loop` of `Pipeline::build_chunks_with_header`.  `splits`
counts detach steps as in the source; `fuel` only bounds the recursion
and is chosen (at the call site) large enough that the source's own
`splits > max_blocks` check always fires first. -/
def inner_loop (tk : String → Nat) (chunkLimit : Nat) (multiStep escapeXml includeGit : Bool)
    (ts gitInfo diffXml : String) (metas : List FileMeta) (maxBlocks : Nat) :
    Nat → List ChunkBody → Nat → Nat → InnerRes
  | 0, _, _, _ => InnerRes.failed "chunk splitting did not converge"
  | fuel + 1, bodies, eff, splits =>
    let total := bodies.length + 1
    let headerXml := "<shared-context>\n" ++
      make_header total chunkLimit metas multiStep escapeXml includeGit ts gitInfo diffXml ++ "\n"
    let wrapperFloor :=
      if chunkLimit > 0 then
        let lastId := total - 1
        let wrapper := "<context-chunk id=\"" ++ toString lastId ++ "/" ++ toString total ++
          "\">\n</context-chunk>\n</shared-context>\n"
        chunkLimit - (tk wrapper + 2)
      else 0
    let bodyXmls := bodies.map (fun b => joinS (b.blocks.map (fun blk => blk.xml)))
    inner_dispatch
      (fun bodies2 splits2 =>
        inner_loop tk chunkLimit multiStep escapeXml includeGit ts gitInfo diffXml metas
          maxBlocks fuel bodies2 eff splits2)
      maxBlocks splits eff wrapperFloor bodies
      (scan_chunks tk chunkLimit headerXml bodyXmls bodies wrapperFloor total 0
        ⟨[], [], false, [], none, 0, false⟩)

/-- The branch taken on one inner-loop outcome: accept the rendered
chunks, surface the error, or repack at the shrunken effective limit. -/
def outer_dispatch (recurse : Nat → Except String (List RenderedChunk)) (r : InnerRes) :
    Except String (List RenderedChunk) :=
  match r with
  | InnerRes.finished chunks => Except.ok chunks
  | InnerRes.failed msg => Except.error msg
  | InnerRes.shrink eff2 => recurse eff2

/-- The `for attempt in 0..8` outer loop of
`Pipeline::build_chunks_with_header`; exhausting the fuel is the
`attempt == 7` non-convergence error of the source. -/
def outer_loop (tk : String → Nat) (fileData : List FileContents) (chunkLimit : Nat)
    (multiStep escapeXml includeGit : Bool) (ts gitInfo diffXml : String) :
    Nat → Nat → Except String (List RenderedChunk)
  | 0, _ => Except.error "chunk splitting did not converge"
  | fuel + 1, eff =>
    let bm := build_chunk_bodies tk fileData eff escapeXml
    let bodies := bm.1
    let metas := bm.2.1
    let maxBlocks := (bodies.map (fun b => b.blocks.length)).sum
    outer_dispatch
      (fun eff2 =>
        outer_loop tk fileData chunkLimit multiStep escapeXml includeGit ts gitInfo diffXml
          fuel eff2)
      (inner_loop tk chunkLimit multiStep escapeXml includeGit ts gitInfo diffXml metas
        maxBlocks (maxBlocks + 1) bodies eff 0)

/-- Embeds `Pipeline::build_chunks_with_header`; the resulting
`rendered_chunks` are returned instead of stored in `self`. -/
def build_chunks_with_header (tk : String → Nat) (fileData : List FileContents)
    (chunkLimit : Nat) (escapeXml multiStep includeGit : Bool)
    (ts gitInfo diffXml : String) : Except String (List RenderedChunk) :=
  if multiStep then
    let metas := build_file_meta tk fileData escapeXml
    let headerXml := "<shared-context>\n" ++
      make_header 1 chunkLimit metas multiStep escapeXml includeGit ts gitInfo diffXml ++ "\n"
    Except.ok [⟨headerXml, tk headerXml⟩]
  else
    outer_loop tk fileData chunkLimit multiStep escapeXml includeGit ts gitInfo diffXml 8 chunkLimit

/-! ### Utility lemmas -/

theorem str_data_eq {a b : String} (h : a.data = b.data) : a = b := String.ext h

theorem str_append_data (a b : String) : (a ++ b).data = a.data ++ b.data :=
  String.data_append a b

theorem str_append_assoc (a b c : String) : a ++ b ++ c = a ++ (b ++ c) := by
  apply str_data_eq
  simp [str_append_data, List.append_assoc]

theorem str_append_empty (a : String) : a ++ "" = a := by
  apply str_data_eq
  simp [str_append_data]

theorem str_empty_append (a : String) : "" ++ a = a := by
  apply str_data_eq
  simp [str_append_data]

theorem str_ne_empty_iff (a : String) : a ≠ "" ↔ a.data ≠ [] := by
  constructor
  · intro h hd
    exact h (str_data_eq (by simp [hd]))
  · intro h hd
    exact h (by simp [hd])

theorem str_append_ne_empty_right (a b : String) (hb : b ≠ "") : a ++ b ≠ "" := by
  rw [str_ne_empty_iff] at hb ⊢
  rw [str_append_data]
  intro h
  exact hb (List.append_eq_nil.mp h).2

theorem joinS_append (xs ys : List String) : joinS (xs ++ ys) = joinS xs ++ joinS ys := by
  induction xs with
  | nil => simp [joinS, str_empty_append]
  | cons x xs ih => simp [joinS, ih, str_append_assoc]

theorem joinS_singleton (s : String) : joinS [s] = s := by
  simp [joinS, str_append_empty]

theorem joinS_map_mk (ls : List (List Char)) :
    joinS (ls.map String.mk) = String.mk ls.flatten := by
  induction ls with
  | nil => simp [joinS]
  | cons l ls ih =>
    simp only [List.map_cons, joinS, ih, List.flatten_cons]
    apply str_data_eq
    rw [str_append_data]

theorem linesNl_ne_nil (cs : List Char) : linesNl cs ≠ [] := by
  cases cs with
  | nil => simp [linesNl]
  | cons c rest =>
    rw [linesNl]
    by_cases h : c = '\n'
    · simp [h]
    · simp only [h, if_false]
      cases linesNl rest with
      | nil => simp
      | cons l ls => simp

theorem linesNl_flatten (cs : List Char) : (linesNl cs).flatten = cs ++ ['\n'] := by
  induction cs with
  | nil => simp [linesNl]
  | cons c rest ih =>
    rw [linesNl]
    by_cases h : c = '\n'
    · simp [h, ih]
    · simp only [h, if_false]
      cases hrest : linesNl rest with
      | nil => exact absurd hrest (linesNl_ne_nil rest)
      | cons l ls =>
        rw [hrest] at ih
        simp only [List.flatten_cons] at ih ⊢
        simp [← List.append_assoc, ih]

theorem linesNl_mem_ne_nil (cs : List Char) : ∀ l ∈ linesNl cs, l ≠ [] := by
  induction cs with
  | nil => simp [linesNl]
  | cons c rest ih =>
    rw [linesNl]
    by_cases h : c = '\n'
    · simp only [h, if_true]
      intro l hl
      rcases List.mem_cons.mp hl with h1 | h2
      · simp [h1]
      · exact ih l h2
    · simp only [h, if_false]
      cases hrest : linesNl rest with
      | nil => exact absurd hrest (linesNl_ne_nil rest)
      | cons l0 ls =>
        intro l hl
        rcases List.mem_cons.mp hl with h1 | h2
        · simp [h1]
        · exact ih l (by rw [hrest]; exact List.mem_cons_of_mem _ h2)

theorem splitLines_join (s : String) : joinS (splitLines s) = s ++ "\n" := by
  rw [splitLines, joinS_map_mk, linesNl_flatten]
  apply str_data_eq
  rw [str_append_data]

theorem splitLines_ne_nil (s : String) : splitLines s ≠ [] := by
  rw [splitLines]
  simp [linesNl_ne_nil]

theorem splitLines_mem_ne_empty (s : String) : ∀ l ∈ splitLines s, l ≠ "" := by
  intro l hl
  rw [splitLines] at hl
  rcases List.mem_map.mp hl with ⟨cl, hcl, rfl⟩
  rw [str_ne_empty_iff]
  exact linesNl_mem_ne_nil s.data cl hcl

theorem str_append_ne_empty_left (a b : String) (ha : a ≠ "") : a ++ b ≠ "" := by
  rw [str_ne_empty_iff] at ha ⊢
  rw [str_append_data]
  intro h
  exact ha (List.append_eq_nil.mp h).1

/-! ### Lemmas about `split_with_total` -/

theorem swt_step_join (tk : String → Nat) (path : String) (maxTokens : Nat)
    (escapeXml : Bool) (totalParts : Nat) (st : SWTState) (line : String) :
    joinS (swt_step tk path maxTokens escapeXml totalParts st line).parts ++
      (swt_step tk path maxTokens escapeXml totalParts st line).current =
    joinS st.parts ++ st.current ++ line := by
  simp only [swt_step]
  split_ifs with h1 h2 h3 h4 <;>
    simp [h1, joinS, joinS_append, joinS_singleton, str_append_empty, str_empty_append,
      str_append_assoc]

theorem swt_fold_join (tk : String → Nat) (path : String) (maxTokens : Nat)
    (escapeXml : Bool) (totalParts : Nat) (lines : List String) :
    ∀ st : SWTState,
      joinS (lines.foldl (swt_step tk path maxTokens escapeXml totalParts) st).parts ++
        (lines.foldl (swt_step tk path maxTokens escapeXml totalParts) st).current =
      joinS st.parts ++ st.current ++ joinS lines := by
  induction lines with
  | nil => intro st; simp [joinS, str_append_empty]
  | cons l ls ih =>
    intro st
    rw [List.foldl_cons, ih, swt_step_join]
    simp [joinS, str_append_assoc]

theorem split_with_total_join (tk : String → Nat) (lines : List String) (path : String)
    (maxTokens : Nat) (escapeXml : Bool) (totalParts : Nat) :
    joinS (split_with_total tk lines path maxTokens escapeXml totalParts).1 =
      joinS lines := by
  simp only [split_with_total]
  have h := swt_fold_join tk path maxTokens escapeXml totalParts lines ⟨[], "", 1, []⟩
  simp only [joinS, str_empty_append] at h
  split_ifs with hc
  · rw [hc, str_append_empty] at h
    exact h
  · rw [joinS_append, joinS_singleton]
    exact h

theorem swt_step_ne (tk : String → Nat) (path : String) (maxTokens : Nat)
    (escapeXml : Bool) (totalParts : Nat) (st : SWTState) (line : String)
    (hl : line ≠ "") :
    (swt_step tk path maxTokens escapeXml totalParts st line).parts ≠ [] ∨
      (swt_step tk path maxTokens escapeXml totalParts st line).current ≠ "" := by
  simp only [swt_step]
  split_ifs with h1 h2 h3 h4
  · exact Or.inl (by simp)
  · refine Or.inr ?_
    show st.current ++ line ≠ ""
    rw [h1, str_empty_append]
    exact hl
  · exact Or.inl (by simp)
  · exact Or.inl (by simp)
  · exact Or.inr (str_append_ne_empty_left st.current line h1)

theorem swt_fold_ne (tk : String → Nat) (path : String) (maxTokens : Nat)
    (escapeXml : Bool) (totalParts : Nat) (lines : List String)
    (hne : lines ≠ []) (hl : ∀ l ∈ lines, l ≠ "") :
    ∀ st : SWTState,
      (lines.foldl (swt_step tk path maxTokens escapeXml totalParts) st).parts ≠ [] ∨
      (lines.foldl (swt_step tk path maxTokens escapeXml totalParts) st).current ≠ "" := by
  induction lines with
  | nil => exact absurd rfl hne
  | cons l ls ih =>
    intro st
    rw [List.foldl_cons]
    by_cases hls : ls = []
    · subst hls
      simp only [List.foldl_nil]
      exact swt_step_ne tk path maxTokens escapeXml totalParts st l (hl l (by simp))
    · exact ih hls (fun x hx => hl x (List.mem_cons_of_mem _ hx)) _

theorem split_with_total_ne (tk : String → Nat) (lines : List String) (path : String)
    (maxTokens : Nat) (escapeXml : Bool) (totalParts : Nat)
    (hne : lines ≠ []) (hl : ∀ l ∈ lines, l ≠ "") :
    (split_with_total tk lines path maxTokens escapeXml totalParts).1 ≠ [] := by
  simp only [split_with_total]
  have h := swt_fold_ne tk path maxTokens escapeXml totalParts lines hne hl ⟨[], "", 1, []⟩
  split_ifs with hc
  · rcases h with h | h
    · exact h
    · exact absurd hc h
  · simp

/-! ### Lemmas about `split_file_into_parts` -/

theorem split_loop_parts_shape (tk : String → Nat) (path : String) (maxTokens : Nat)
    (escapeXml : Bool) (lines : List String) :
    ∀ (fuel target : Nat) (last : List String) (ws : List CWarn),
      ∃ t, (split_loop tk path maxTokens escapeXml lines (fuel + 1) target last ws).parts =
        (split_with_total tk lines path maxTokens escapeXml t).1 := by
  intro fuel
  induction fuel with
  | zero =>
    intro target last ws
    rw [split_loop]
    split_ifs with h
    · exact ⟨target, rfl⟩
    · rw [split_loop]
      exact ⟨target, rfl⟩
  | succ fuel ih =>
    intro target last ws
    rw [split_loop]
    split_ifs with h
    · exact ⟨target, rfl⟩
    · exact ih _ _ _

theorem split_parts_shape (tk : String → Nat) (contents : String) (path : String)
    (maxTokens : Nat) (escapeXml : Bool) :
    ∃ t, (split_file_into_parts tk contents path maxTokens escapeXml).parts =
      (split_with_total tk (splitLines contents) path maxTokens escapeXml t).1 :=
  split_loop_parts_shape tk path maxTokens escapeXml (splitLines contents) 15 1 [] []

theorem split_parts_join (tk : String → Nat) (contents : String) (path : String)
    (maxTokens : Nat) (escapeXml : Bool) :
    joinS (split_file_into_parts tk contents path maxTokens escapeXml).parts =
      contents ++ "\n" := by
  rcases split_parts_shape tk contents path maxTokens escapeXml with ⟨t, ht⟩
  rw [ht, split_with_total_join, splitLines_join]

theorem split_parts_ne (tk : String → Nat) (contents : String) (path : String)
    (maxTokens : Nat) (escapeXml : Bool) :
    (split_file_into_parts tk contents path maxTokens escapeXml).parts ≠ [] := by
  rcases split_parts_shape tk contents path maxTokens escapeXml with ⟨t, ht⟩
  rw [ht]
  exact split_with_total_ne tk (splitLines contents) path maxTokens escapeXml t
    (splitLines_ne_nil contents) (splitLines_mem_ne_empty contents)

/-! ### Block decomposition: every rendered block is its opening tag line,
the ghost `body` text, and the closing tag line -/

instance : Inhabited FileMeta := ⟨⟨0, "", 0, 0⟩⟩

instance : Inhabited FileContents := ⟨⟨"", "", ""⟩⟩

/-- The opening tag line of a rendered block (with or without the
`part="i/N"` attribute). -/
def block_open_tag (path : String) (escapeXml : Bool) (part : Option (Nat × Nat)) : String :=
  let filename := pathFileName path
  let folder := pathParent path
  let folderDisplay := if folder = "" then "." else folder
  let pathAttr := maybe_escape_attr path escapeXml
  let filenameAttr := maybe_escape_attr filename escapeXml
  let folderAttr := maybe_escape_attr folderDisplay escapeXml
  match part with
  | none =>
    "    <file-contents path=\"" ++ pathAttr ++ "\" name=\"" ++ filenameAttr ++
      "\" folder=\"" ++ folderAttr ++ "\">\n"
  | some pr =>
    "    <file-contents path=\"" ++ pathAttr ++ "\" name=\"" ++ filenameAttr ++
      "\" folder=\"" ++ folderAttr ++ "\" part=\"" ++ toString pr.1 ++ "/" ++ toString pr.2 ++
      "\">\n"

/-- The closing tag line of a rendered block. -/
def block_close_tag : String := "    </file-contents>\n"

theorem wrap_file_decomp (path body : String) (escapeXml : Bool) :
    wrap_file path body escapeXml =
      block_open_tag path escapeXml none ++ (body ++ "\n") ++ block_close_tag := by
  simp only [wrap_file, block_open_tag, block_close_tag]
  rw [show ("\n    </file-contents>\n" : String) = "\n" ++ "    </file-contents>\n" by decide]
  simp [str_append_assoc]

theorem wrap_part_decomp (path : String) (idx total : Nat) (body : String) (escapeXml : Bool) :
    wrap_part path idx total body escapeXml =
      block_open_tag path escapeXml (some (idx, total)) ++ body ++ block_close_tag := by
  simp only [wrap_part, block_open_tag, block_close_tag]

/-! ### Lemmas about `file_blocks` -/

theorem file_blocks_src (tk : String → Nat) (maxTokens : Nat) (escapeXml : Bool)
    (i : Nat) (f : FileContents) :
    ∀ b ∈ (file_blocks tk maxTokens escapeXml i f).1, b.src = i := by
  simp only [file_blocks]
  split_ifs with h
  · intro b hb
    rw [List.mem_singleton] at hb
    subst hb
    rfl
  · intro b hb
    rcases List.mem_map.mp hb with ⟨p, _, rfl⟩
    rfl

theorem file_blocks_body_join (tk : String → Nat) (maxTokens : Nat) (escapeXml : Bool)
    (i : Nat) (f : FileContents) :
    joinS ((file_blocks tk maxTokens escapeXml i f).1.map (fun b => b.body)) =
      maybe_escape_text f.contents escapeXml ++ "\n" := by
  simp only [file_blocks]
  split_ifs with h
  · simp [whole_file_block, joinS_singleton]
  · rw [List.map_map]
    have hmap : ((split_file_into_parts tk (maybe_escape_text f.contents escapeXml) f.path
        maxTokens escapeXml).parts.enum.map
          ((fun b => b.body) ∘ (fun p => part_file_block tk escapeXml i
            (max (split_file_into_parts tk (maybe_escape_text f.contents escapeXml) f.path
              maxTokens escapeXml).parts.length 1) p.1 p.2 f.path))) =
        ((split_file_into_parts tk (maybe_escape_text f.contents escapeXml) f.path
          maxTokens escapeXml).parts.enum.map Prod.snd) := by
      apply List.map_congr_left
      intro p _
      rfl
    rw [hmap]
    rw [show ∀ l : List String, l.enum = l.enumFrom 0 from fun _ => rfl]
    rw [List.enumFrom_map_snd]
    exact split_parts_join tk (maybe_escape_text f.contents escapeXml) f.path maxTokens escapeXml

theorem file_blocks_len_parts (tk : String → Nat) (maxTokens : Nat) (escapeXml : Bool)
    (i : Nat) (f : FileContents) :
    (file_blocks tk maxTokens escapeXml i f).2.1.parts =
      (file_blocks tk maxTokens escapeXml i f).1.length := by
  simp only [file_blocks]
  split_ifs with h
  · rfl
  · simp only [List.length_map, List.enum_length]
    have hne := split_parts_ne tk (maybe_escape_text f.contents escapeXml) f.path
      maxTokens escapeXml
    have : 1 ≤ (split_file_into_parts tk (maybe_escape_text f.contents escapeXml) f.path
        maxTokens escapeXml).parts.length := by
      cases hp : (split_file_into_parts tk (maybe_escape_text f.contents escapeXml) f.path
          maxTokens escapeXml).parts with
      | nil => exact absurd hp hne
      | cons a l => simp
    simpa using Nat.max_eq_left this

theorem file_blocks_part_total (tk : String → Nat) (maxTokens : Nat) (escapeXml : Bool)
    (i : Nat) (f : FileContents) :
    ∀ b ∈ (file_blocks tk maxTokens escapeXml i f).1, ∀ pr : Nat × Nat,
      b.part = some pr → pr.2 = (file_blocks tk maxTokens escapeXml i f).2.1.parts := by
  simp only [file_blocks]
  split_ifs with h
  · intro b hb pr hpr
    rw [List.mem_singleton] at hb
    subst hb
    exact absurd hpr (by simp [whole_file_block])
  · intro b hb pr hpr
    rcases List.mem_map.mp hb with ⟨p, _, rfl⟩
    simp only [part_file_block] at hpr
    injection hpr with h2
    rw [← h2]

theorem file_blocks_part_none (tk : String → Nat) (maxTokens : Nat) (escapeXml : Bool)
    (i : Nat) (f : FileContents) :
    ∀ b ∈ (file_blocks tk maxTokens escapeXml i f).1, b.part = none →
      (file_blocks tk maxTokens escapeXml i f).2.1.parts = 1 := by
  simp only [file_blocks]
  split_ifs with h
  · intro b _ _
    rfl
  · intro b hb hnone
    rcases List.mem_map.mp hb with ⟨p, _, rfl⟩
    exact absurd hnone (by simp [part_file_block])

theorem file_blocks_warn (tk : String → Nat) (maxTokens : Nat) (escapeXml : Bool)
    (i : Nat) (f : FileContents) (hmax : 0 < maxTokens) :
    ∀ b ∈ (file_blocks tk maxTokens escapeXml i f).1, maxTokens < b.tokens →
      CWarn.oversizePart f.path ((b.part.getD (0, 0)).1) maxTokens ∈
        (file_blocks tk maxTokens escapeXml i f).2.2 := by
  simp only [file_blocks]
  split_ifs with h
  · intro b hb hover
    rw [List.mem_singleton] at hb
    subst hb
    rcases h with h | h
    · omega
    · simp only [whole_file_block] at hover
      omega
  · intro b hb hover
    apply List.mem_append_right
    apply List.mem_filterMap.mpr
    exact ⟨b, hb, by rw [if_pos hover]⟩

theorem file_blocks_xml (tk : String → Nat) (maxTokens : Nat) (escapeXml : Bool)
    (i : Nat) (f : FileContents) :
    ∀ b ∈ (file_blocks tk maxTokens escapeXml i f).1,
      b.xml = block_open_tag f.path escapeXml b.part ++ b.body ++ block_close_tag := by
  simp only [file_blocks]
  split_ifs with h
  · intro b hb
    rw [List.mem_singleton] at hb
    subst hb
    simp only [whole_file_block]
    rw [wrap_file_decomp]
  · intro b hb
    rcases List.mem_map.mp hb with ⟨p, _, rfl⟩
    simp only [part_file_block]
    rw [wrap_part_decomp]

/-! ### Lemmas about the greedy packing loop -/

/-- Sum of the token counts of a block list. -/
def sumTok (bs : List FileBlock) : Nat := (bs.map (fun b => b.tokens)).sum

theorem sumTok_append (xs ys : List FileBlock) : sumTok (xs ++ ys) = sumTok xs + sumTok ys := by
  simp [sumTok]

theorem sumTok_singleton (b : FileBlock) : sumTok [b] = b.tokens := by
  simp [sumTok]

/-- The invariant carried by every chunk body the packing loop produces. -/
def PackP (maxTokens : Nat) (c : ChunkBody) : Prop :=
  c.blocks ≠ [] ∧ c.tokens = sumTok c.blocks ∧
    (0 < maxTokens → 1 < c.blocks.length → c.tokens ≤ maxTokens)

theorem pack_fold_inv (maxTokens : Nat) (blocks : List FileBlock) :
    ∀ (cs : List ChunkBody) (cur : ChunkBody),
      (∀ c ∈ cs, PackP maxTokens c) →
      cur.tokens = sumTok cur.blocks →
      (0 < maxTokens → 1 < cur.blocks.length → cur.tokens ≤ maxTokens) →
      (∀ c ∈ (blocks.foldl (pack_step maxTokens) (cs, cur)).1, PackP maxTokens c) ∧
      (blocks.foldl (pack_step maxTokens) (cs, cur)).2.tokens =
        sumTok (blocks.foldl (pack_step maxTokens) (cs, cur)).2.blocks ∧
      (0 < maxTokens → 1 < (blocks.foldl (pack_step maxTokens) (cs, cur)).2.blocks.length →
        (blocks.foldl (pack_step maxTokens) (cs, cur)).2.tokens ≤ maxTokens) ∧
      ((blocks.foldl (pack_step maxTokens) (cs, cur)).1.map (fun c => c.blocks)).flatten ++
          (blocks.foldl (pack_step maxTokens) (cs, cur)).2.blocks =
        (cs.map (fun c => c.blocks)).flatten ++ cur.blocks ++ blocks := by
  induction blocks with
  | nil =>
    intro cs cur h1 h2 h3
    exact ⟨h1, h2, h3, by simp⟩
  | cons b bs ih =>
    intro cs cur h1 h2 h3
    rw [List.foldl_cons]
    by_cases hc : maxTokens > 0 ∧ cur.blocks ≠ [] ∧ cur.tokens + b.tokens > maxTokens
    · have hstep : pack_step maxTokens (cs, cur) b = (cs ++ [cur], ⟨[b], b.tokens⟩) := by
        simp only [pack_step, if_pos hc]
      rw [hstep]
      have hcs' : ∀ c ∈ cs ++ [cur], PackP maxTokens c := by
        intro c hcmem
        rcases List.mem_append.mp hcmem with hm | hm
        · exact h1 c hm
        · rw [List.mem_singleton] at hm
          subst hm
          exact ⟨hc.2.1, h2, h3⟩
      have := ih (cs ++ [cur]) ⟨[b], b.tokens⟩ hcs' (by simp [sumTok]) (by simp)
      refine ⟨this.1, this.2.1, this.2.2.1, ?_⟩
      rw [this.2.2.2]
      simp [List.append_assoc]
    · have hstep : pack_step maxTokens (cs, cur) b =
          (cs, ⟨cur.blocks ++ [b], cur.tokens + b.tokens⟩) := by
        simp only [pack_step, if_neg hc]
      rw [hstep]
      have hsum : cur.tokens + b.tokens = sumTok (cur.blocks ++ [b]) := by
        rw [sumTok_append, sumTok_singleton, h2]
      have hbound : 0 < maxTokens → 1 < (cur.blocks ++ [b]).length →
          cur.tokens + b.tokens ≤ maxTokens := by
        intro hpos hlen
        rcases Decidable.em (cur.blocks = []) with hnil | hnil
        · rw [hnil] at hlen
          simp at hlen
        · have : ¬ cur.tokens + b.tokens > maxTokens := by
            intro hover
            exact hc ⟨hpos, hnil, hover⟩
          omega
      have := ih cs ⟨cur.blocks ++ [b], cur.tokens + b.tokens⟩ h1 hsum hbound
      refine ⟨this.1, this.2.1, this.2.2.1, ?_⟩
      rw [this.2.2.2]
      simp [List.append_assoc]

theorem pack_blocks_inv (maxTokens : Nat) (blocks : List FileBlock) :
    ∀ c ∈ pack_blocks maxTokens blocks, PackP maxTokens c := by
  have h := pack_fold_inv maxTokens blocks [] ⟨[], 0⟩ (by simp) (by simp [sumTok]) (by simp)
  simp only [pack_blocks]
  split_ifs with hne
  · intro c hcmem
    rcases List.mem_append.mp hcmem with hm | hm
    · exact h.1 c hm
    · rw [List.mem_singleton] at hm
      subst hm
      exact ⟨hne, h.2.1, h.2.2.1⟩
  · exact h.1

theorem pack_blocks_concat (maxTokens : Nat) (blocks : List FileBlock) :
    ((pack_blocks maxTokens blocks).map (fun c => c.blocks)).flatten = blocks := by
  have h := pack_fold_inv maxTokens blocks [] ⟨[], 0⟩ (by simp) (by simp [sumTok]) (by simp)
  have hcat := h.2.2.2
  simp only [List.map_nil, List.flatten_nil, List.nil_append] at hcat
  simp only [pack_blocks]
  split_ifs with hne
  · simp only [List.map_append, List.flatten_append]
    simpa using hcat
  · push_neg at hne
    rw [hne] at hcat
    simpa using hcat

theorem pack_fold_zero (blocks : List FileBlock) :
    ∀ (cs : List ChunkBody) (cur : ChunkBody),
      blocks.foldl (pack_step 0) (cs, cur) =
        (cs, ⟨cur.blocks ++ blocks, cur.tokens + sumTok blocks⟩) := by
  induction blocks with
  | nil => intro cs cur; simp [sumTok]
  | cons b bs ih =>
    intro cs cur
    rw [List.foldl_cons]
    have hstep : pack_step 0 (cs, cur) b = (cs, ⟨cur.blocks ++ [b], cur.tokens + b.tokens⟩) := by
      simp [pack_step]
    rw [hstep, ih]
    simp only [Prod.mk.injEq, true_and, ChunkBody.mk.injEq]
    constructor
    · simp [List.append_assoc]
    · simp [sumTok]
      omega

theorem pack_blocks_zero (blocks : List FileBlock) :
    pack_blocks 0 blocks = if blocks = [] then [] else [⟨blocks, sumTok blocks⟩] := by
  simp only [pack_blocks, pack_fold_zero blocks [] ⟨[], 0⟩]
  by_cases h : blocks = []
  · subst h
    simp
  · simp [h]

/-! ### Lemmas about `build_chunk_bodies` -/

/-- All blocks of a chunk-body list, in chunk order. -/
def chunk_blocks (cs : List ChunkBody) : List FileBlock :=
  (cs.map (fun c => c.blocks)).flatten

/-- The per-file block groups built by the first loop of
`build_chunk_bodies`, starting the file ids at `n`. -/
def block_groups (tk : String → Nat) (maxTokens : Nat) (escapeXml : Bool)
    (files : List FileContents) (n : Nat) : List (List FileBlock) :=
  (files.enumFrom n).map (fun p => (file_blocks tk maxTokens escapeXml p.1 p.2).1)

theorem build_fst_eq (tk : String → Nat) (files : List FileContents) (maxTokens : Nat)
    (escapeXml : Bool) :
    (build_chunk_bodies tk files maxTokens escapeXml).1 =
      pack_blocks maxTokens (block_groups tk maxTokens escapeXml files 0).flatten := by
  simp only [build_chunk_bodies, block_groups, List.map_map]
  rfl

theorem build_concat (tk : String → Nat) (files : List FileContents) (maxTokens : Nat)
    (escapeXml : Bool) :
    chunk_blocks (build_chunk_bodies tk files maxTokens escapeXml).1 =
      (block_groups tk maxTokens escapeXml files 0).flatten := by
  rw [build_fst_eq]
  exact pack_blocks_concat maxTokens _

theorem block_groups_cons (tk : String → Nat) (maxTokens : Nat) (escapeXml : Bool)
    (f : FileContents) (rest : List FileContents) (n : Nat) :
    block_groups tk maxTokens escapeXml (f :: rest) n =
      (file_blocks tk maxTokens escapeXml n f).1 ::
        block_groups tk maxTokens escapeXml rest (n + 1) := by
  simp [block_groups, List.enumFrom_cons]

theorem block_groups_src_ge (tk : String → Nat) (maxTokens : Nat) (escapeXml : Bool) :
    ∀ (files : List FileContents) (n : Nat),
      ∀ b ∈ (block_groups tk maxTokens escapeXml files n).flatten, n ≤ b.src := by
  intro files
  induction files with
  | nil => intro n b hb; simp [block_groups] at hb
  | cons f rest ih =>
    intro n b hb
    rw [block_groups_cons] at hb
    rw [List.flatten_cons] at hb
    rcases List.mem_append.mp hb with hm | hm
    · rw [file_blocks_src tk maxTokens escapeXml n f b hm]
    · exact Nat.le_of_succ_le (ih (n + 1) b hm)

theorem block_groups_join (tk : String → Nat) (maxTokens : Nat) (escapeXml : Bool) :
    ∀ (files : List FileContents) (n : Nat),
      joinS ((block_groups tk maxTokens escapeXml files n).flatten.map (fun b => b.body)) =
        joinS (files.map (fun f => maybe_escape_text f.contents escapeXml ++ "\n")) := by
  intro files
  induction files with
  | nil => intro n; simp [block_groups]
  | cons f rest ih =>
    intro n
    rw [block_groups_cons, List.flatten_cons, List.map_append, joinS_append,
      file_blocks_body_join, ih (n + 1)]
    simp [joinS]

theorem build_stripped (tk : String → Nat) (files : List FileContents) (maxTokens : Nat)
    (escapeXml : Bool) :
    joinS ((chunk_blocks (build_chunk_bodies tk files maxTokens escapeXml).1).map
        (fun b => b.body)) =
      joinS (files.map (fun f => maybe_escape_text f.contents escapeXml ++ "\n")) := by
  rw [build_concat]
  exact block_groups_join tk maxTokens escapeXml files 0

theorem build_warns_eq (tk : String → Nat) (files : List FileContents) (maxTokens : Nat)
    (escapeXml : Bool) :
    (build_chunk_bodies tk files maxTokens escapeXml).2.2 =
      ((files.enumFrom 0).map
        (fun p => (file_blocks tk maxTokens escapeXml p.1 p.2).2.2)).flatten := by
  simp only [build_chunk_bodies, List.map_map]
  rfl

theorem build_metas_eq (tk : String → Nat) (files : List FileContents) (maxTokens : Nat)
    (escapeXml : Bool) :
    (build_chunk_bodies tk files maxTokens escapeXml).2.1 =
      (files.enumFrom 0).map (fun p => (file_blocks tk maxTokens escapeXml p.1 p.2).2.1) := by
  simp only [build_chunk_bodies, List.map_map]
  rfl

theorem mem_enumFrom_getD :
    ∀ (l : List FileContents) (n : Nat) (p : Nat × FileContents), p ∈ l.enumFrom n →
      n ≤ p.1 ∧ p.1 < n + l.length ∧ p.2 = l.getD (p.1 - n) default := by
  intro l
  induction l with
  | nil => intro n p hp; simp [List.enumFrom_nil] at hp
  | cons f rest ih =>
    intro n p hp
    rw [List.enumFrom_cons] at hp
    rcases List.mem_cons.mp hp with hm | hm
    · subst hm
      refine ⟨Nat.le_refl n, by simp, ?_⟩
      simp
    · rcases ih (n + 1) p hm with ⟨h1, h2, h3⟩
      refine ⟨Nat.le_of_succ_le h1, by simp at h2 ⊢; omega, ?_⟩
      rw [h3]
      have : p.1 - n = (p.1 - (n + 1)) + 1 := by omega
      rw [this]
      simp

theorem getD_map_enumFrom {β : Type} (g : Nat → FileContents → β) (d : β) :
    ∀ (l : List FileContents) (n i : Nat), i < l.length →
      ((l.enumFrom n).map (fun p => g p.1 p.2)).getD i d = g (n + i) (l.getD i default) := by
  intro l
  induction l with
  | nil => intro n i hi; simp at hi
  | cons f rest ih =>
    intro n i hi
    rw [List.enumFrom_cons]
    cases i with
    | zero => simp
    | succ j =>
      simp only [List.map_cons, List.getD_cons_succ, List.getD_cons_succ]
      rw [ih (n + 1) j (by simpa using hi)]
      have : n + 1 + j = n + (j + 1) := by omega
      rw [this]

theorem metas_getD (tk : String → Nat) (files : List FileContents) (maxTokens : Nat)
    (escapeXml : Bool) (i : Nat) (hi : i < files.length) :
    (build_chunk_bodies tk files maxTokens escapeXml).2.1.getD i default =
      (file_blocks tk maxTokens escapeXml i (files.getD i default)).2.1 := by
  rw [build_metas_eq]
  have := getD_map_enumFrom (fun j file => (file_blocks tk maxTokens escapeXml j file).2.1)
    default files 0 i hi
  simpa using this

theorem build_warn_mem (tk : String → Nat) (files : List FileContents) (maxTokens : Nat)
    (escapeXml : Bool) (p : Nat × FileContents) (hp : p ∈ files.enumFrom 0) :
    ∀ w ∈ (file_blocks tk maxTokens escapeXml p.1 p.2).2.2,
      w ∈ (build_chunk_bodies tk files maxTokens escapeXml).2.2 := by
  intro w hw
  rw [build_warns_eq]
  exact List.mem_flatten.mpr ⟨_, List.mem_map.mpr ⟨p, hp, rfl⟩, hw⟩

theorem chunk_blocks_mem_group (tk : String → Nat) (files : List FileContents)
    (maxTokens : Nat) (escapeXml : Bool) (b : FileBlock)
    (hb : b ∈ chunk_blocks (build_chunk_bodies tk files maxTokens escapeXml).1) :
    ∃ p ∈ files.enumFrom 0, b ∈ (file_blocks tk maxTokens escapeXml p.1 p.2).1 := by
  rw [build_concat] at hb
  rcases List.mem_flatten.mp hb with ⟨g, hg, hbg⟩
  rcases List.mem_map.mp hg with ⟨p, hp, rfl⟩
  exact ⟨p, hp, hbg⟩

theorem filter_block_groups (tk : String → Nat) (maxTokens : Nat) (escapeXml : Bool) :
    ∀ (files : List FileContents) (n i : Nat), n ≤ i → i < n + files.length →
      ((block_groups tk maxTokens escapeXml files n).flatten).filter
          (fun b => b.src == i) =
        (file_blocks tk maxTokens escapeXml i (files.getD (i - n) default)).1 := by
  intro files
  induction files with
  | nil =>
    intro n i h1 h2
    simp at h2
    omega
  | cons f rest ih =>
    intro n i h1 h2
    rw [block_groups_cons, List.flatten_cons, List.filter_append]
    by_cases hni : i = n
    · subst hni
      have hgrp : (file_blocks tk maxTokens escapeXml i f).1.filter
          (fun b => b.src == i) = (file_blocks tk maxTokens escapeXml i f).1 := by
        apply List.filter_eq_self.mpr
        intro b hb
        exact beq_iff_eq.mpr (file_blocks_src tk maxTokens escapeXml i f b hb)
      have hrest : ((block_groups tk maxTokens escapeXml rest (i + 1)).flatten).filter
          (fun b => b.src == i) = [] := by
        apply List.filter_eq_nil_iff.mpr
        intro b hb
        have := block_groups_src_ge tk maxTokens escapeXml rest (i + 1) b hb
        simp only [beq_iff_eq]
        omega
      rw [hgrp, hrest, List.append_nil]
      simp
    · have hgrp : (file_blocks tk maxTokens escapeXml n f).1.filter
          (fun b => b.src == i) = [] := by
        apply List.filter_eq_nil_iff.mpr
        intro b hb
        have := file_blocks_src tk maxTokens escapeXml n f b hb
        simp only [beq_iff_eq]
        omega
      rw [hgrp, List.nil_append]
      have h1' : n + 1 ≤ i := by omega
      have h2' : i < (n + 1) + rest.length := by simp at h2; omega
      rw [ih (n + 1) i h1' h2']
      have : i - n = (i - (n + 1)) + 1 := by omega
      rw [this]
      simp

/-! ### Concrete tokenizers and inputs used by counterexamples and witnesses -/

/-- A tokenizer counting every text as 0 tokens. -/
def tkZero : String → Nat := fun _ => 0

/-- A tokenizer counting every text as 1 token. -/
def tkOne : String → Nat := fun _ => 1

/-- A small input file. -/
def fileA : FileContents := ⟨".", "f.txt", "a\nb"⟩

/-- A tokenizer making the whole-file block of `fileA` oversize while its
two line parts fit, so `build_chunk_bodies` splits the file in two. -/
def tkSplit : String → Nat := fun s =>
  if s = wrap_file "f.txt" "a\nb" false ∨ s = wrap_part "f.txt" 1 1 "a\nb\n" false ∨
     s = wrap_part "f.txt" 1 2 "a\nb\n" false
  then 100 else 1

/-- The concatenation of the text standing strictly between the opening
and closing wrapper tag lines of every emitted block, in chunk and part
order. -/
def stripped_bodies (cs : List ChunkBody) : String :=
  joinS ((chunk_blocks cs).map (fun b => b.body))

/-- Sanity: every emitted block really is its opening tag line, the
stripped `body` text, and the closing tag line, justifying the stripping
convention of `stripped_bodies`. -/
theorem build_block_xml_decomp (tk : String → Nat) (files : List FileContents)
    (maxTokens : Nat) (escapeXml : Bool) :
    ∀ b ∈ chunk_blocks (build_chunk_bodies tk files maxTokens escapeXml).1,
      ∃ pathStr, b.xml = block_open_tag pathStr escapeXml b.part ++ b.body ++ block_close_tag := by
  intro b hb
  rcases chunk_blocks_mem_group tk files maxTokens escapeXml b hb with ⟨p, _, hbg⟩
  exact ⟨p.2.path, file_blocks_xml tk maxTokens escapeXml p.1 p.2 b hbg⟩

/-! ### Claim C1 -/

/-- C1 counterexample: for the file `"a\nb"` (no trailing newline) and
limit 10 with a tokenizer that forces a two-part split, the concatenated
stripped body text is `"a\nb\n"`, not the original `"a\nb"`: splitting
renders lines with an appended newline, so reassembly is not
byte-for-byte. -/
theorem C1_counterexample :
    stripped_bodies (build_chunk_bodies tkSplit [fileA] 10 false).1 ≠
      joinS ([fileA].map (fun f => f.contents)) := by
  decide

/-- C1 (amended): concatenating the stripped body text of all emitted
chunks in chunk/part order reproduces the concatenation of the (escaped)
original file contents with exactly one newline appended per file, in
original file order — rather than byte-for-byte. -/
theorem C1_reassembly_amended (tk : String → Nat) (files : List FileContents)
    (maxTokens : Nat) (escapeXml : Bool) :
    stripped_bodies (build_chunk_bodies tk files maxTokens escapeXml).1 =
      joinS (files.map (fun f => maybe_escape_text f.contents escapeXml ++ "\n")) :=
  build_stripped tk files maxTokens escapeXml

/-! ### Claim C2 -/

/-- C2: with a positive limit, every chunk body holding more than one
block stays within the limit; an oversize chunk body consists of exactly
one block, itself oversize, and an oversize-part warning for that part
index was emitted; and no block is ever dropped (the chunks' blocks are
exactly the rendered blocks, in order). -/
theorem C2_budget (tk : String → Nat) (files : List FileContents) (maxTokens : Nat)
    (escapeXml : Bool) (hmax : 0 < maxTokens) :
    (∀ c ∈ (build_chunk_bodies tk files maxTokens escapeXml).1,
      (1 < c.blocks.length → c.tokens ≤ maxTokens) ∧
      (maxTokens < c.tokens → ∃ b, c.blocks = [b] ∧ maxTokens < b.tokens ∧
        ∃ pathStr, CWarn.oversizePart pathStr ((b.part.getD (0, 0)).1) maxTokens ∈
          (build_chunk_bodies tk files maxTokens escapeXml).2.2)) ∧
    chunk_blocks (build_chunk_bodies tk files maxTokens escapeXml).1 =
      (block_groups tk maxTokens escapeXml files 0).flatten := by
  refine ⟨?_, build_concat tk files maxTokens escapeXml⟩
  intro c hcmem
  have hc : PackP maxTokens c := by
    rw [build_fst_eq] at hcmem
    exact pack_blocks_inv maxTokens _ c hcmem
  rcases hc with ⟨hne, hsum, hbound⟩
  refine ⟨hbound hmax, ?_⟩
  intro hover
  have hlen : c.blocks.length = 1 := by
    rcases Nat.lt_or_ge 1 c.blocks.length with hgt | hle
    · exact absurd (hbound hmax hgt) (by omega)
    · have : c.blocks.length ≠ 0 := by
        intro h0
        exact hne (List.eq_nil_of_length_eq_zero h0)
      omega
  rcases List.length_eq_one.mp hlen with ⟨b, hb⟩
  have hbtok : c.tokens = b.tokens := by
    rw [hsum, hb, sumTok_singleton]
  refine ⟨b, hb, by omega, ?_⟩
  have hbmem : b ∈ chunk_blocks (build_chunk_bodies tk files maxTokens escapeXml).1 := by
    apply List.mem_flatten.mpr
    exact ⟨c.blocks, List.mem_map.mpr ⟨c, hcmem, rfl⟩, by rw [hb]; simp⟩
  rcases chunk_blocks_mem_group tk files maxTokens escapeXml b hbmem with ⟨p, hp, hbg⟩
  refine ⟨p.2.path, ?_⟩
  exact build_warn_mem tk files maxTokens escapeXml p hp _
    (file_blocks_warn tk maxTokens escapeXml p.1 p.2 hmax b hbg (by omega))

/-- C2 witness at a concrete instance. -/
theorem C2_budget_witness :
    (1 < ((build_chunk_bodies tkZero [fileA] 5 false).1.getD 0 default).blocks.length →
      ((build_chunk_bodies tkZero [fileA] 5 false).1.getD 0 default).tokens ≤ 5) ∧
    chunk_blocks (build_chunk_bodies tkZero [fileA] 5 false).1 =
      (block_groups tkZero 5 false [fileA] 0).flatten := by
  have h := C2_budget tkZero [fileA] 5 false (by decide)
  refine ⟨?_, h.2⟩
  have hm : (build_chunk_bodies tkZero [fileA] 5 false).1.getD 0 default ∈
      (build_chunk_bodies tkZero [fileA] 5 false).1 := by decide
  exact (h.1 _ hm).1

/-! ### Claim C6 -/

/-- C6: for each input file, `FileMeta.parts` equals the number of blocks
emitted for that file across all chunk bodies; every `part="i/N"`
attribute carried by one of that file's blocks declares `N` equal to that
count; and a file emitted as a single unsplit block has `parts = 1`. -/
theorem C6_parts_accounting (tk : String → Nat) (files : List FileContents)
    (maxTokens : Nat) (escapeXml : Bool) (i : Nat) (hi : i < files.length) :
    ((build_chunk_bodies tk files maxTokens escapeXml).2.1.getD i default).parts =
      ((chunk_blocks (build_chunk_bodies tk files maxTokens escapeXml).1).filter
        (fun b => b.src == i)).length ∧
    (∀ b ∈ chunk_blocks (build_chunk_bodies tk files maxTokens escapeXml).1, b.src = i →
      ∀ pr ∈ b.part,
        pr.2 = ((build_chunk_bodies tk files maxTokens escapeXml).2.1.getD i default).parts) ∧
    (∀ b ∈ chunk_blocks (build_chunk_bodies tk files maxTokens escapeXml).1, b.src = i →
      b.part = none →
      ((build_chunk_bodies tk files maxTokens escapeXml).2.1.getD i default).parts = 1) := by
  have hmeta := metas_getD tk files maxTokens escapeXml i hi
  have hfilter : (chunk_blocks (build_chunk_bodies tk files maxTokens escapeXml).1).filter
      (fun b => b.src == i) =
      (file_blocks tk maxTokens escapeXml i (files.getD i default)).1 := by
    rw [build_concat]
    have := filter_block_groups tk maxTokens escapeXml files 0 i (Nat.zero_le i)
      (by simpa using hi)
    simpa using this
  have hgroup : ∀ b ∈ chunk_blocks (build_chunk_bodies tk files maxTokens escapeXml).1,
      b.src = i → b ∈ (file_blocks tk maxTokens escapeXml i (files.getD i default)).1 := by
    intro b hb hsrc
    rcases chunk_blocks_mem_group tk files maxTokens escapeXml b hb with ⟨p, hp, hbg⟩
    have hpi : p.1 = i := by
      rw [← hsrc, file_blocks_src tk maxTokens escapeXml p.1 p.2 b hbg]
    rcases mem_enumFrom_getD files 0 p hp with ⟨_, _, hp2⟩
    rw [hpi] at hp2
    simp only [Nat.sub_zero] at hp2
    rw [hpi, hp2] at hbg
    exact hbg
  refine ⟨?_, ?_, ?_⟩
  · rw [hmeta, hfilter]
    exact file_blocks_len_parts tk maxTokens escapeXml i (files.getD i default)
  · intro b hb hsrc pr hpr
    rw [hmeta]
    exact file_blocks_part_total tk maxTokens escapeXml i (files.getD i default) b
      (hgroup b hb hsrc) pr (Option.mem_def.mp hpr)
  · intro b hb hsrc hnone
    rw [hmeta]
    exact file_blocks_part_none tk maxTokens escapeXml i (files.getD i default) b
      (hgroup b hb hsrc) hnone

/-- C6 witness at a concrete instance. -/
theorem C6_parts_accounting_witness :
    ((build_chunk_bodies tkSplit [fileA] 10 false).2.1.getD 0 default).parts =
      ((chunk_blocks (build_chunk_bodies tkSplit [fileA] 10 false).1).filter
        (fun b => b.src == 0)).length :=
  (C6_parts_accounting tkSplit [fileA] 10 false 0 (by decide)).1

/-! ### Claim C7 -/

theorem file_blocks_zero (tk : String → Nat) (escapeXml : Bool) (i : Nat) (f : FileContents) :
    file_blocks tk 0 escapeXml i f =
      ([whole_file_block tk escapeXml i f],
       ⟨i, f.path, tk (maybe_escape_text f.contents escapeXml), 1⟩, ([] : List CWarn)) := by
  simp only [file_blocks]
  simp

theorem flatten_map_singleton {α β : Type} (l : List α) (g : α → β) :
    (l.map (fun a => [g a])).flatten = l.map g := by
  induction l with
  | nil => simp
  | cons a as ih => simp [ih]

theorem block_groups_zero (tk : String → Nat) (escapeXml : Bool)
    (files : List FileContents) (n : Nat) :
    (block_groups tk 0 escapeXml files n).flatten =
      (files.enumFrom n).map (fun p => whole_file_block tk escapeXml p.1 p.2) := by
  simp only [block_groups]
  have : ((files.enumFrom n).map (fun p => (file_blocks tk 0 escapeXml p.1 p.2).1)) =
      (files.enumFrom n).map (fun p => [whole_file_block tk escapeXml p.1 p.2]) := by
    apply List.map_congr_left
    intro p _
    rw [file_blocks_zero]
  rw [this]
  exact flatten_map_singleton _ _

/-- C7 counterexample: with an empty file list and limit 0 the builder
produces no chunk body at all, not exactly one. -/
theorem C7_counterexample :
    ¬ ((build_chunk_bodies tkZero ([] : List FileContents) 0 false).1.length = 1) := by
  decide

/-- C7 (amended): with limit 0 and at least one input file, partitioning
is disabled: exactly one chunk body is emitted, holding one unsplit
whole-file block per input file in order (none carries a `part`
attribute), and every file meta reports `parts = 1`; an empty file list
instead yields no chunk body. -/
theorem C7_no_chunking (tk : String → Nat) (files : List FileContents) (escapeXml : Bool)
    (hne : files ≠ []) :
    (build_chunk_bodies tk files 0 escapeXml).1 =
      [⟨(files.enumFrom 0).map (fun p => whole_file_block tk escapeXml p.1 p.2),
        sumTok ((files.enumFrom 0).map (fun p => whole_file_block tk escapeXml p.1 p.2))⟩] ∧
    (chunk_blocks (build_chunk_bodies tk files 0 escapeXml).1).length = files.length ∧
    (∀ b ∈ chunk_blocks (build_chunk_bodies tk files 0 escapeXml).1, b.part = none) ∧
    (∀ m ∈ (build_chunk_bodies tk files 0 escapeXml).2.1, m.parts = 1) := by
  have hflat := block_groups_zero tk escapeXml files 0
  have hfst : (build_chunk_bodies tk files 0 escapeXml).1 =
      [⟨(files.enumFrom 0).map (fun p => whole_file_block tk escapeXml p.1 p.2),
        sumTok ((files.enumFrom 0).map (fun p => whole_file_block tk escapeXml p.1 p.2))⟩] := by
    rw [build_fst_eq, pack_blocks_zero, hflat]
    rw [if_neg]
    intro h
    have : files.length = 0 := by
      have := congrArg List.length h
      simpa using this
    exact hne (List.eq_nil_of_length_eq_zero this)
  refine ⟨hfst, ?_, ?_, ?_⟩
  · rw [build_concat, hflat]
    simp
  · intro b hb
    rw [build_concat, hflat] at hb
    rcases List.mem_map.mp hb with ⟨p, _, rfl⟩
    rfl
  · intro m hm
    rw [build_metas_eq] at hm
    rcases List.mem_map.mp hm with ⟨p, _, rfl⟩
    rw [file_blocks_zero]

/-- C7 witness at a concrete instance. -/
theorem C7_no_chunking_witness :
    (build_chunk_bodies tkZero [fileA] 0 false).1 =
      [⟨([fileA].enumFrom 0).map (fun p => whole_file_block tkZero false p.1 p.2),
        sumTok (([fileA].enumFrom 0).map (fun p => whole_file_block tkZero false p.1 p.2))⟩] :=
  (C7_no_chunking tkZero [fileA] false (by decide)).1

/-! ### Claim C10 -/

/-- C10: every chunk body out of `build_chunk_bodies` has a non-empty
block list and a `tokens` field equal to the sum of its blocks' token
counts, and this invariant is preserved by the detach step of the
pipeline's convergence loop (which pops the last block of a multi-block
body into a fresh single-block body). -/
theorem C10_chunkbody_invariant (tk : String → Nat) (files : List FileContents)
    (maxTokens : Nat) (escapeXml : Bool) :
    (∀ c ∈ (build_chunk_bodies tk files maxTokens escapeXml).1,
      c.blocks ≠ [] ∧ c.tokens = sumTok c.blocks) ∧
    (∀ (bodies : List ChunkBody) (i : Nat),
      (∀ c ∈ bodies, c.blocks ≠ [] ∧ c.tokens = sumTok c.blocks) →
      i < bodies.length → 1 < (bodies.getD i default).blocks.length →
      ∀ c ∈ detach_step bodies i, c.blocks ≠ [] ∧ c.tokens = sumTok c.blocks) := by
  constructor
  · intro c hcmem
    rw [build_fst_eq] at hcmem
    have := pack_blocks_inv maxTokens _ c hcmem
    exact ⟨this.1, this.2.1⟩
  · intro bodies i hinv hi hmulti c hcmem
    simp only [detach_step] at hcmem
    have hbmem : bodies.getD i default ∈ bodies := by
      rw [List.getD_eq_getElem bodies default hi]
      exact List.getElem_mem hi
    have hb := hinv _ hbmem
    rcases List.eq_nil_or_concat (bodies.getD i default).blocks with hnil | ⟨bs, x, hbs⟩
    · rw [hnil] at hmulti
      simp at hmulti
    · rw [List.concat_eq_append] at hbs
      have hlast : (bodies.getD i default).blocks.getLastD default = x := by
        rw [hbs]
        simp
      have hdrop : (bodies.getD i default).blocks.dropLast = bs := by
        rw [hbs]
        simp
      have hsum : (bodies.getD i default).tokens = sumTok bs + x.tokens := by
        rw [hb.2, hbs, sumTok_append, sumTok_singleton]
      have hbsne : bs ≠ [] := by
        intro h0
        rw [hbs, h0] at hmulti
        simp at hmulti
      have hle : i + 1 ≤ (bodies.set i
          ⟨(bodies.getD i default).blocks.dropLast,
            (bodies.getD i default).tokens -
              ((bodies.getD i default).blocks.getLastD default).tokens⟩).length := by
        simp
        omega
      rcases (List.mem_insertIdx hle).mp hcmem with hc1 | hc2
      · subst hc1
        rw [hlast]
        exact ⟨by simp, by rw [sumTok_singleton]⟩
      · rcases List.mem_or_eq_of_mem_set hc2 with hcold | hcnew
        · exact hinv c hcold
        · subst hcnew
          refine ⟨?_, ?_⟩
          · dsimp only
            rw [hdrop]
            exact hbsne
          · dsimp only
            rw [hlast, hdrop, hsum]
            omega

/-- C10 witness at a concrete instance. -/
theorem C10_chunkbody_invariant_witness :
    ((build_chunk_bodies tkSplit [fileA] 10 false).1.getD 0 default).blocks ≠ [] ∧
    ((build_chunk_bodies tkSplit [fileA] 10 false).1.getD 0 default).tokens =
      sumTok ((build_chunk_bodies tkSplit [fileA] 10 false).1.getD 0 default).blocks := by
  apply (C10_chunkbody_invariant tkSplit [fileA] 10 false).1
  decide

/-! ### Claim C3 -/

theorem split_loop_fix (tk : String → Nat) (path : String) (maxTokens : Nat)
    (escapeXml : Bool) (lines : List String) :
    ∀ (fuel target : Nat) (last : List String) (ws : List CWarn),
      (split_loop tk path maxTokens escapeXml lines fuel target last ws).converged = true →
      (split_loop tk path maxTokens escapeXml lines fuel target last ws).parts =
        (split_with_total tk lines path maxTokens escapeXml
          (max (split_loop tk path maxTokens escapeXml lines fuel target last ws).parts.length
            1)).1 := by
  intro fuel
  induction fuel with
  | zero =>
    intro target last ws h
    simp [split_loop] at h
  | succ fuel ih =>
    intro target last ws h
    rw [split_loop] at h ⊢
    split_ifs at h ⊢ with hconv
    · dsimp only at hconv ⊢
      have h2 : (split_with_total tk lines path maxTokens escapeXml target).1.length ⊔ 1 =
          target := by
        omega
      rw [h2]
    · exact ih _ _ _ h

/-- A tokenizer making the fixed-point iteration of
`split_file_into_parts` oscillate between one and two parts forever: with
a declared total of 1 the two lines of `fileA` do not fit together, with
a declared total of 2 they do. -/
def tkOsc : String → Nat := fun s =>
  if s = wrap_part "f.txt" 1 1 "a\nb\n" false then 11 else 1

/-- C3 counterexample: on this input the 16-attempt fixed-point iteration
never converges, yet the warning list is empty — contradicting "on
non-convergence it yields a warning". -/
theorem C3_counterexample :
    (split_file_into_parts tkOsc "a\nb" "f.txt" 10 false).converged = false ∧
    (split_file_into_parts tkOsc "a\nb" "f.txt" 10 false).warns = [] := by
  decide

/-- C3 (amended): `split_file_into_parts` runs a bounded fixed-point
iteration of at most 16 attempts; whenever it converges (returns early),
the returned parts are a true fixed point: re-splitting with the declared
total equal to the observed part count reproduces them exactly.  On
non-convergence it returns the last attempt's parts without emitting any
warning. -/
theorem C3_fixed_point_amended (tk : String → Nat) (contents path : String)
    (maxTokens : Nat) (escapeXml : Bool)
    (h : (split_file_into_parts tk contents path maxTokens escapeXml).converged = true) :
    (split_file_into_parts tk contents path maxTokens escapeXml).parts =
      (split_with_total tk (splitLines contents) path maxTokens escapeXml
        (max (split_file_into_parts tk contents path maxTokens escapeXml).parts.length 1)).1 :=
  split_loop_fix tk path maxTokens escapeXml (splitLines contents) 16 1 [] [] h

/-- C3 witness at a concrete converging instance. -/
theorem C3_fixed_point_witness :
    (split_file_into_parts tkZero "a\nb" "f.txt" 5 false).parts =
      (split_with_total tkZero (splitLines "a\nb") "f.txt" 5 false
        (max (split_file_into_parts tkZero "a\nb" "f.txt" 5 false).parts.length 1)).1 :=
  C3_fixed_point_amended tkZero "a\nb" "f.txt" 5 false (by decide)

/-! ### Claim C8 -/

instance {e a : Type} [DecidableEq e] [DecidableEq a] : DecidableEq (Except e a) :=
  fun x y =>
    match x, y with
    | Except.error u, Except.error v =>
      if h : u = v then isTrue (by rw [h]) else isFalse (fun hc => h (by injection hc))
    | Except.error _, Except.ok _ => isFalse (fun hc => Except.noConfusion hc)
    | Except.ok _, Except.error _ => isFalse (fun hc => Except.noConfusion hc)
    | Except.ok u, Except.ok v =>
      if h : u = v then isTrue (by rw [h]) else isFalse (fun hc => h (by injection hc))

/-- C8 counterexample: after a first `init` selected `gpt-4`, a second
`init` with the different model `claude-3` is not rejected: it returns
success and silently leaves the first selection in effect. -/
theorem C8_counterexample :
    (tokenizer_init (some "claude-3") none
      (tokenizer_init (some "gpt-4") none ⟨none⟩).2).1 = Except.ok () ∧
    (tokenizer_init (some "claude-3") none
      (tokenizer_init (some "gpt-4") none ⟨none⟩).2).2 =
      (tokenizer_init (some "gpt-4") none ⟨none⟩).2 ∧
    (tokenizer_init (some "gpt-4") none ⟨none⟩).2.tok = some "gpt-4" := by
  decide

/-- C8 (amended): the tokenizer is selected once per process — the first
`init` call chooses the model and succeeds — but every later `init` call,
with any configuration, is silently ignored: it returns success (never an
error) and leaves the originally selected tokenizer in effect. -/
theorem C8_init_amended (model envModel : Option String) (st : TokenizerState) :
    (st.tok.isSome → tokenizer_init model envModel st = (Except.ok (), st)) ∧
    (tokenizer_init model envModel st).1 = Except.ok () ∧
    (st.tok = none →
      (tokenizer_init model envModel st).2.tok =
        some (bpe_for_model
          (((model.map normalize_model_name).orElse (fun _ => envModel)).getD
            DEFAULT_MODEL))) := by
  refine ⟨?_, ?_, ?_⟩
  · intro hsome
    simp [tokenizer_init, hsome]
  · simp only [tokenizer_init]
    split_ifs <;> rfl
  · intro hnone
    simp [tokenizer_init, hnone]

/-- C8 witness: a second call with a different model is a successful
no-op. -/
theorem C8_init_witness :
    tokenizer_init (some "claude-3") none (tokenizer_init (some "gpt-4") none ⟨none⟩).2 =
      (Except.ok (), (tokenizer_init (some "gpt-4") none ⟨none⟩).2) :=
  (C8_init_amended (some "claude-3") none
    (tokenizer_init (some "gpt-4") none ⟨none⟩).2).1 (by decide)

/-! ### Claim C9 -/

theorem joinS_data (l : List String) : (joinS l).data = (l.map String.data).flatten := by
  induction l with
  | nil => rfl
  | cons s rest ih => simp [joinS, str_append_data, ih]

theorem escapeChar_no_delims (c0 : Char) :
    ∀ c ∈ (escapeChar true c0).data,
      ¬(c = '<' ∨ c = '>' ∨ c = quoteChar ∨ c = aposChar) := by
  simp only [escapeChar]
  split_ifs with h1 h2 h3 h4 h5
  · decide
  · decide
  · decide
  · decide
  · decide
  · intro c hc
    simp only [String.singleton, String.data_push, List.nil_append] at hc
    rcases List.mem_singleton.mp (by simpa using hc) with rfl
    push_neg
    refine ⟨h2, h3, ?_, ?_⟩
    · intro hq
      exact h4 ⟨hq, trivial⟩
    · intro ha
      exact h5 ⟨ha, trivial⟩

theorem escape_inner_no_delims (s : String) :
    ∀ c ∈ (escape_xml_inner s true).data,
      ¬(c = '<' ∨ c = '>' ∨ c = quoteChar ∨ c = aposChar) := by
  intro c hc
  rw [escape_xml_inner, joinS_data] at hc
  rcases List.mem_flatten.mp hc with ⟨piece, hpiece, hcp⟩
  rcases List.mem_map.mp hpiece with ⟨t, ht, rfl⟩
  rcases List.mem_map.mp ht with ⟨c0, _, rfl⟩
  exact escapeChar_no_delims c0 c hcp

/-- C9: with XML escaping disabled, body text passes through unchanged,
while an attribute value is escaped exactly when it contains one of the
delimiter-breaking characters `& < > " '`; in either case the emitted
attribute value contains no raw `< > " '`, so the container stays
well-formed. -/
theorem C9_escaping (s : String) :
    maybe_escape_text s false = s ∧
    (needs_escape_attr s = false → maybe_escape_attr s false = s) ∧
    (needs_escape_attr s = true → maybe_escape_attr s false = escape_xml_inner s true) ∧
    (∀ c ∈ (maybe_escape_attr s false).data,
      ¬(c = '<' ∨ c = '>' ∨ c = quoteChar ∨ c = aposChar)) := by
  refine ⟨rfl, ?_, ?_, ?_⟩
  · intro hno
    simp [maybe_escape_attr, hno]
  · intro hyes
    simp [maybe_escape_attr, hyes]
  · intro c hc
    by_cases hne : needs_escape_attr s
    · rw [maybe_escape_attr] at hc
      rw [if_pos (Or.inr hne)] at hc
      exact escape_inner_no_delims s c hc
    · rw [maybe_escape_attr] at hc
      rw [if_neg (by simp [hne])] at hc
      rw [Bool.not_eq_true] at hne
      rw [needs_escape_attr, List.any_eq_false] at hne
      have hfive : ¬(c = '&' ∨ c = '<' ∨ c = '>' ∨ c = quoteChar ∨ c = aposChar) := by
        simpa using hne c hc
      intro hdelim
      rcases hdelim with h | h | h | h <;> exact hfive (by tauto)

/-- C9 witness: a value containing `<` is escaped, and the raw body
passes through. -/
theorem C9_escaping_witness :
    maybe_escape_attr "a<b" false = escape_xml_inner "a<b" true :=
  (C9_escaping "a<b").2.2.1 (by decide)

/-! ### Claim C4 -/

theorem pass_decision_ne_failed (eff wrapperFloor : Nat) (st : ScanSt) (msg : String) :
    pass_decision eff wrapperFloor st ≠ InnerRes.failed msg := by
  simp only [pass_decision]
  split_ifs <;> intro h <;> exact InnerRes.noConfusion h

theorem inner_dispatch_err (recurse : List ChunkBody → Nat → InnerRes)
    (maxBlocks splits eff wrapperFloor : Nat) (bodies : List ChunkBody) (r : ScanRes)
    (hrec : ∀ (b : List ChunkBody) (s : Nat) (m : String),
      recurse b s = InnerRes.failed m → m = "chunk splitting did not converge")
    (msg : String)
    (h : inner_dispatch recurse maxBlocks splits eff wrapperFloor bodies r =
      InnerRes.failed msg) :
    msg = "chunk splitting did not converge" := by
  cases r with
  | splitAt bodyIdx =>
    simp only [inner_dispatch] at h
    split_ifs at h with hs
    · injection h with h1
      exact h1.symm
    · exact hrec _ _ _ h
  | complete st =>
    exact absurd h (pass_decision_ne_failed _ _ _ _)

theorem inner_loop_err (tk : String → Nat) (chunkLimit : Nat)
    (multiStep escapeXml includeGit : Bool) (ts gitInfo diffXml : String)
    (metas : List FileMeta) (maxBlocks : Nat) :
    ∀ (fuel : Nat) (bodies : List ChunkBody) (eff splits : Nat) (msg : String),
      inner_loop tk chunkLimit multiStep escapeXml includeGit ts gitInfo diffXml metas
        maxBlocks fuel bodies eff splits = InnerRes.failed msg →
      msg = "chunk splitting did not converge" := by
  intro fuel
  induction fuel with
  | zero =>
    intro bodies eff splits msg h
    rw [inner_loop] at h
    injection h with h1
    exact h1.symm
  | succ fuel ih =>
    intro bodies eff splits msg h
    rw [inner_loop] at h
    exact inner_dispatch_err _ _ _ _ _ _ _ (fun b s m hm => ih b eff s m hm) _ h

theorem outer_loop_err (tk : String → Nat) (fileData : List FileContents)
    (chunkLimit : Nat) (multiStep escapeXml includeGit : Bool)
    (ts gitInfo diffXml : String) :
    ∀ (fuel eff : Nat) (msg : String),
      outer_loop tk fileData chunkLimit multiStep escapeXml includeGit ts gitInfo diffXml
        fuel eff = Except.error msg →
      msg = "chunk splitting did not converge" := by
  intro fuel
  induction fuel with
  | zero =>
    intro eff msg h
    rw [outer_loop] at h
    injection h with h1
    exact h1.symm
  | succ fuel ih =>
    intro eff msg h
    rw [outer_loop] at h
    revert h
    generalize hinner : inner_loop tk chunkLimit multiStep escapeXml includeGit ts gitInfo
      diffXml (build_chunk_bodies tk fileData eff escapeXml).2.1
      ((build_chunk_bodies tk fileData eff escapeXml).1.map (fun b => b.blocks.length)).sum
      (((build_chunk_bodies tk fileData eff escapeXml).1.map
        (fun b => b.blocks.length)).sum + 1)
      (build_chunk_bodies tk fileData eff escapeXml).1 eff 0 = r
    intro h
    cases r with
    | finished chunks => exact absurd h (by simp [outer_dispatch])
    | failed m =>
      simp only [outer_dispatch] at h
      injection h with h1
      subst h1
      exact inner_loop_err tk chunkLimit multiStep escapeXml includeGit ts gitInfo diffXml
        _ _ _ _ _ _ _ hinner
    | shrink eff2 =>
      simp only [outer_dispatch] at h
      exact ih _ _ h

/-- A tokenizer driving the convergence loop of
`build_chunks_with_header` through all 8 passes without converging: the
single rendered chunk snippet is always declared oversize (101 > 100)
while the block inside it stays below the limit, so every pass shrinks
the effective limit and the attempt ceiling is hit. -/
def tkC4 : String → Nat := fun s =>
  if s = wrap_file "f.txt" "a\nb" false then 100
  else if s = wrap_part "f.txt" 1 1 "a\nb\n" false then 96
  else if s = "<context-chunk id=\"1/2\">\n" ++ wrap_file "f.txt" "a\nb" false ++
      "</context-chunk>\n</shared-context>\n" then 101
  else if s = "<context-chunk id=\"1/2\">\n" ++ wrap_part "f.txt" 1 1 "a\nb\n" false ++
      "</context-chunk>\n</shared-context>\n" then 101
  else if s = "<context-chunk id=\"1/2\">\n</context-chunk>\n</shared-context>\n" then 80
  else 1

/-- C4 counterexample: when the 8-pass ceiling is hit the pipeline does
not warn and return the last attempt's packing — it aborts the run with
an error. -/
theorem C4_counterexample :
    build_chunks_with_header tkC4 [fileA] 100 false false false "2025-01-01T00:00:00Z" "" "" =
      Except.error "chunk splitting did not converge" := by
  decide

/-- C4 (amended): the convergence loop repeats at most 8 passes, and the
only way `build_chunks_with_header` can fail is by aborting with the
non-convergence error `"chunk splitting did not converge"` when a ceiling
is hit — it does not warn and return the last attempt's packing. -/
theorem C4_nonconvergence_amended (tk : String → Nat) (fileData : List FileContents)
    (chunkLimit : Nat) (escapeXml multiStep includeGit : Bool)
    (ts gitInfo diffXml : String) (msg : String)
    (h : build_chunks_with_header tk fileData chunkLimit escapeXml multiStep includeGit
      ts gitInfo diffXml = Except.error msg) :
    msg = "chunk splitting did not converge" := by
  rw [build_chunks_with_header] at h
  split_ifs at h
  exact outer_loop_err tk fileData chunkLimit multiStep escapeXml includeGit ts gitInfo
    diffXml 8 chunkLimit msg h

/-- C4 witness: the amended theorem applied at the concrete non-converging
input. -/
theorem C4_nonconvergence_witness :
    "chunk splitting did not converge" = "chunk splitting did not converge" :=
  C4_nonconvergence_amended tkC4 [fileA] 100 false false false "2025-01-01T00:00:00Z" "" ""
    "chunk splitting did not converge" (by decide)

/-! ### Claim C5 -/

/-- Two lists agreeing everywhere except possibly in their first element. -/
def listTailEq {α : Type} (l1 l2 : List α) : Prop :=
  l1.length = l2.length ∧ l1.drop 1 = l2.drop 1

theorem listTailEq_refl {α : Type} (l : List α) : listTailEq l l := ⟨rfl, rfl⟩

theorem listTailEq_append {α : Type} {l1 l2 : List α} (h : listTailEq l1 l2) (a : α) :
    listTailEq (l1 ++ [a]) (l2 ++ [a]) := by
  obtain ⟨hlen, hdrop⟩ := h
  cases l1 with
  | nil =>
    cases l2 with
    | nil => exact ⟨rfl, rfl⟩
    | cons y t2 => simp at hlen
  | cons x t1 =>
    cases l2 with
    | nil => simp at hlen
    | cons y t2 =>
      refine ⟨by simpa using hlen, ?_⟩
      simp only [List.drop_succ_cons, List.drop_zero] at hdrop
      simp [hdrop]

theorem listTailEq_zip_mk {l1 l2 : List String} {t1 t2 : List Nat}
    (hl : listTailEq l1 l2) (ht : listTailEq t1 t2) :
    listTailEq ((l1.zip t1).map (fun p => RenderedChunk.mk p.1 p.2))
      ((l2.zip t2).map (fun p => RenderedChunk.mk p.1 p.2)) := by
  obtain ⟨hl1, hl2⟩ := hl
  obtain ⟨ht1, ht2⟩ := ht
  cases l1 with
  | nil =>
    cases l2 with
    | nil => exact ⟨by simp, by simp⟩
    | cons => simp at hl1
  | cons x xs =>
    cases l2 with
    | nil => simp at hl1
    | cons y ys =>
      cases t1 with
      | nil =>
        cases t2 with
        | nil => exact ⟨by simp, by simp⟩
        | cons => simp at ht1
      | cons a as =>
        cases t2 with
        | nil => simp at ht1
        | cons b bs =>
          simp only [List.drop_succ_cons, List.drop_zero] at hl2 ht2
          subst hl2
          subst ht2
          refine ⟨?_, ?_⟩
          · simp only [List.zip_cons_cons, List.map_cons, List.length_cons]
          · simp [List.zip_cons_cons]

/-- The state relation along the snippet loop: everything equal except
the header snippet and its token count (positions 0) and the
header-oversize flag, which only gates a warning. -/
def stRel (a b : ScanSt) : Prop :=
  listTailEq a.snips b.snips ∧ listTailEq a.toks b.toks ∧
    a.oversizeSingle = b.oversizeSingle ∧ a.requiredLimit = b.requiredLimit ∧
    a.maxOver = b.maxOver ∧ a.hasUnavoidable = b.hasUnavoidable

/-- The result relation for the snippet loop. -/
def scanRel (r1 r2 : ScanRes) : Prop :=
  match r1, r2 with
  | ScanRes.complete a, ScanRes.complete b => stRel a b
  | ScanRes.splitAt i, ScanRes.splitAt j => i = j
  | _, _ => False

theorem render_eq_of_ne_zero (h1 h2 : String) (bodyXmls : List String) (idx : Nat)
    (hidx : idx ≠ 0) :
    render_chunk_snippet h1 bodyXmls idx = render_chunk_snippet h2 bodyXmls idx := by
  simp only [render_chunk_snippet]
  rw [if_neg hidx, if_neg hidx]

theorem scan_rel (tk : String → Nat) (chunkLimit : Nat) (h1 h2 : String)
    (bodyXmls : List String) (bodies : List ChunkBody) (wrapperFloor : Nat) :
    ∀ (fuel idx : Nat) (st1 st2 : ScanSt), idx ≠ 0 → stRel st1 st2 →
      scanRel (scan_chunks tk chunkLimit h1 bodyXmls bodies wrapperFloor fuel idx st1)
        (scan_chunks tk chunkLimit h2 bodyXmls bodies wrapperFloor fuel idx st2) := by
  intro fuel
  induction fuel with
  | zero =>
    intro idx st1 st2 _ hrel
    exact hrel
  | succ fuel ih =>
    intro idx st1 st2 hidx hrel
    rw [scan_chunks, scan_chunks]
    rw [render_eq_of_ne_zero h2 h1 bodyXmls idx hidx]
    obtain ⟨hsn, htk, hsing, hreq, hmax, hun⟩ := hrel
    have hrel1 : stRel
        { st1 with
          snips := st1.snips ++ [render_chunk_snippet h1 bodyXmls idx]
          toks := st1.toks ++ [tk (render_chunk_snippet h1 bodyXmls idx)] }
        { st2 with
          snips := st2.snips ++ [render_chunk_snippet h1 bodyXmls idx]
          toks := st2.toks ++ [tk (render_chunk_snippet h1 bodyXmls idx)] } :=
      ⟨listTailEq_append hsn _, listTailEq_append htk _, hsing, hreq, hmax, hun⟩
    by_cases hc : chunkLimit > 0 ∧ tk (render_chunk_snippet h1 bodyXmls idx) > chunkLimit
    · rw [if_pos hc, if_pos hc]
      rw [if_neg hidx, if_neg hidx]
      by_cases hb : (bodies.getD (idx - 1) default).blocks.length > 1
      · rw [if_pos hb, if_pos hb]
        rfl
      · rw [if_neg hb, if_neg hb]
        by_cases hbt : ((bodies.getD (idx - 1) default).blocks.getD 0 default).tokens >
            chunkLimit
        · rw [if_pos hbt, if_pos hbt]
          apply ih (idx + 1) _ _ (Nat.succ_ne_zero idx)
          exact ⟨hrel1.1, hrel1.2.1, by simp [hsing], hreq, hmax, rfl⟩
        · rw [if_neg hbt, if_neg hbt]
          apply ih (idx + 1) _ _ (Nat.succ_ne_zero idx)
          refine ⟨hrel1.1, hrel1.2.1, by simp [hsing], ?_, ?_, hun⟩
          · simp only [hreq]
          · simp only [hmax]
    · rw [if_neg hc, if_neg hc]
      apply ih (idx + 1) _ _ (Nat.succ_ne_zero idx)
      exact hrel1

/-- The initial scan state of each inner-loop pass. -/
def scanSt0 : ScanSt := ⟨[], [], false, [], none, 0, false⟩

theorem scan_rel_zero (tk : String → Nat) (chunkLimit : Nat) (h1 h2 : String)
    (bodyXmls : List String) (bodies : List ChunkBody) (wrapperFloor : Nat) (fuel : Nat) :
    scanRel (scan_chunks tk chunkLimit h1 bodyXmls bodies wrapperFloor fuel 0 scanSt0)
      (scan_chunks tk chunkLimit h2 bodyXmls bodies wrapperFloor fuel 0 scanSt0) := by
  cases fuel with
  | zero =>
    exact ⟨listTailEq_refl _, listTailEq_refl _, rfl, rfl, rfl, rfl⟩
  | succ fuel =>
    rw [scan_chunks, scan_chunks]
    have e0 : ∀ (A B : ScanRes), (if (0 : Nat) = 0 then A else B) = A :=
      fun A B => if_pos rfl
    have hstep : ∀ st1 st2 : ScanSt, stRel st1 st2 →
        scanRel (scan_chunks tk chunkLimit h1 bodyXmls bodies wrapperFloor fuel (0 + 1) st1)
          (scan_chunks tk chunkLimit h2 bodyXmls bodies wrapperFloor fuel (0 + 1) st2) :=
      fun st1 st2 hr =>
        scan_rel tk chunkLimit h1 h2 bodyXmls bodies wrapperFloor fuel (0 + 1) st1 st2
          (Nat.succ_ne_zero 0) hr
    by_cases hc1 : chunkLimit > 0 ∧ tk (render_chunk_snippet h1 bodyXmls 0) > chunkLimit
    · rw [if_pos hc1, e0]
      by_cases hc2 : chunkLimit > 0 ∧ tk (render_chunk_snippet h2 bodyXmls 0) > chunkLimit
      · rw [if_pos hc2, e0]
        exact hstep _ _ ⟨⟨rfl, rfl⟩, ⟨rfl, rfl⟩, rfl, rfl, rfl, rfl⟩
      · rw [if_neg hc2]
        exact hstep _ _ ⟨⟨rfl, rfl⟩, ⟨rfl, rfl⟩, rfl, rfl, rfl, rfl⟩
    · rw [if_neg hc1]
      by_cases hc2 : chunkLimit > 0 ∧ tk (render_chunk_snippet h2 bodyXmls 0) > chunkLimit
      · rw [if_pos hc2, e0]
        exact hstep _ _ ⟨⟨rfl, rfl⟩, ⟨rfl, rfl⟩, rfl, rfl, rfl, rfl⟩
      · rw [if_neg hc2]
        exact hstep _ _ ⟨⟨rfl, rfl⟩, ⟨rfl, rfl⟩, rfl, rfl, rfl, rfl⟩

/-- The result relation for one inner-loop outcome. -/
def innerRel (r1 r2 : InnerRes) : Prop :=
  match r1, r2 with
  | InnerRes.finished c1, InnerRes.finished c2 => listTailEq c1 c2
  | InnerRes.shrink a, InnerRes.shrink b => a = b
  | InnerRes.failed a, InnerRes.failed b => a = b
  | _, _ => False

theorem pass_decision_rel (eff wrapperFloor : Nat) {st1 st2 : ScanSt} (h : stRel st1 st2) :
    innerRel (pass_decision eff wrapperFloor st1) (pass_decision eff wrapperFloor st2) := by
  obtain ⟨hsn, htk, _, hreq, hmax, hun⟩ := h
  simp only [pass_decision, hreq, hmax, hun]
  split_ifs
  · rfl
  · rfl
  · rfl
  · exact listTailEq_zip_mk hsn htk

theorem inner_dispatch_rel (rec1 rec2 : List ChunkBody → Nat → InnerRes)
    (maxBlocks splits eff wrapperFloor : Nat) (bodies : List ChunkBody)
    {r1 r2 : ScanRes} (hr : scanRel r1 r2)
    (hrec : ∀ (b : List ChunkBody) (s : Nat), innerRel (rec1 b s) (rec2 b s)) :
    innerRel (inner_dispatch rec1 maxBlocks splits eff wrapperFloor bodies r1)
      (inner_dispatch rec2 maxBlocks splits eff wrapperFloor bodies r2) := by
  cases r1 with
  | splitAt i =>
    cases r2 with
    | splitAt j =>
      have hij : i = j := hr
      subst hij
      simp only [inner_dispatch]
      split_ifs with hs
      · rfl
      · exact hrec _ _
    | complete st => exact hr.elim
  | complete st1 =>
    cases r2 with
    | splitAt j => exact hr.elim
    | complete st2 => exact pass_decision_rel eff wrapperFloor hr

theorem inner_rel (tk : String → Nat) (chunkLimit : Nat)
    (multiStep escapeXml includeGit : Bool) (ts1 ts2 gitInfo diffXml : String)
    (metas : List FileMeta) (maxBlocks : Nat) :
    ∀ (fuel : Nat) (bodies : List ChunkBody) (eff splits : Nat),
      innerRel
        (inner_loop tk chunkLimit multiStep escapeXml includeGit ts1 gitInfo diffXml metas
          maxBlocks fuel bodies eff splits)
        (inner_loop tk chunkLimit multiStep escapeXml includeGit ts2 gitInfo diffXml metas
          maxBlocks fuel bodies eff splits) := by
  intro fuel
  induction fuel with
  | zero =>
    intro bodies eff splits
    rw [inner_loop, inner_loop]
    rfl
  | succ fuel ih =>
    intro bodies eff splits
    rw [inner_loop, inner_loop]
    exact inner_dispatch_rel _ _ _ _ _ _ _
      (scan_rel_zero tk chunkLimit _ _ _ _ _ _) (fun b s => ih b eff s)

/-- The result relation for the pipeline: identical outcomes except
possibly the header chunk (index 0). -/
def exceptTailRel (r1 r2 : Except String (List RenderedChunk)) : Prop :=
  match r1, r2 with
  | Except.ok c1, Except.ok c2 => listTailEq c1 c2
  | Except.error e1, Except.error e2 => e1 = e2
  | _, _ => False

theorem outer_dispatch_rel (rec1 rec2 : Nat → Except String (List RenderedChunk))
    {r1 r2 : InnerRes} (hr : innerRel r1 r2)
    (hrec : ∀ e : Nat, exceptTailRel (rec1 e) (rec2 e)) :
    exceptTailRel (outer_dispatch rec1 r1) (outer_dispatch rec2 r2) := by
  cases r1 with
  | finished c1 =>
    cases r2 with
    | finished c2 => exact hr
    | shrink e => exact hr.elim
    | failed m => exact hr.elim
  | shrink e1 =>
    cases r2 with
    | finished c2 => exact hr.elim
    | shrink e2 =>
      have he : e1 = e2 := hr
      subst he
      exact hrec e1
    | failed m => exact hr.elim
  | failed m1 =>
    cases r2 with
    | finished c2 => exact hr.elim
    | shrink e => exact hr.elim
    | failed m2 => exact hr

theorem outer_rel (tk : String → Nat) (fileData : List FileContents) (chunkLimit : Nat)
    (multiStep escapeXml includeGit : Bool) (ts1 ts2 gitInfo diffXml : String) :
    ∀ (fuel eff : Nat),
      exceptTailRel
        (outer_loop tk fileData chunkLimit multiStep escapeXml includeGit ts1 gitInfo diffXml
          fuel eff)
        (outer_loop tk fileData chunkLimit multiStep escapeXml includeGit ts2 gitInfo diffXml
          fuel eff) := by
  intro fuel
  induction fuel with
  | zero =>
    intro eff
    rw [outer_loop, outer_loop]
    rfl
  | succ fuel ih =>
    intro eff
    rw [outer_loop, outer_loop]
    exact outer_dispatch_rel _ _
      (inner_rel tk chunkLimit multiStep escapeXml includeGit ts1 ts2 gitInfo diffXml _ _ _ _
        _ _) ih

set_option maxHeartbeats 4000000 in
/-- C5 counterexample: the same file list and limit, run at two different
generation timestamps, produce different `RenderedChunk` sequences — the
header chunk embeds the `generated-at` timestamp, so repeated runs are
not byte-identical. -/
theorem C5_counterexample :
    build_chunks_with_header tkOne [] 50 false false false "2025-01-01T00:00:00Z" "" "" ≠
      build_chunks_with_header tkOne [] 50 false false false "2025-01-01T00:00:01Z" "" "" := by
  decide

/-- C5 (amended): for a fixed file list, limit, flags and git sections,
two runs of the chunk-building pipeline produce outcomes that agree
except possibly in the header chunk (index 0): both fail with the same
error, or both succeed with `RenderedChunk` sequences of equal length
that are byte-identical from index 1 on.  Only the header chunk depends
on the generation timestamp; with equal timestamps the runs are
byte-identical (the pipeline is a pure function of its inputs). -/
theorem C5_idempotence_amended (tk : String → Nat) (fileData : List FileContents)
    (chunkLimit : Nat) (escapeXml multiStep includeGit : Bool)
    (gitInfo diffXml ts1 ts2 : String) :
    exceptTailRel
      (build_chunks_with_header tk fileData chunkLimit escapeXml multiStep includeGit ts1
        gitInfo diffXml)
      (build_chunks_with_header tk fileData chunkLimit escapeXml multiStep includeGit ts2
        gitInfo diffXml) := by
  cases multiStep with
  | false =>
    rw [build_chunks_with_header, build_chunks_with_header]
    rw [if_neg (by simp), if_neg (by simp)]
    exact outer_rel tk fileData chunkLimit false escapeXml includeGit ts1 ts2 gitInfo
      diffXml 8 chunkLimit
  | true =>
    rw [build_chunks_with_header, build_chunks_with_header]
    rw [if_pos rfl, if_pos rfl]
    refine ⟨?_, ?_⟩
    · simp
    · simp
